import Mathlib

/-!
# golang-semver: parsing and validating version strings

A shallow embedding of `parse.go`, `semver.go`, `util.go` and `regex.go`.

Conventions of the embedding.

* A Go `string` is modelled by a Lean `String` (a list of Unicode code
  points, i.e. a well-formed UTF-8 Go string).  Go's `len` is the number of
  bytes of the UTF-8 encoding, `String.utf8ByteSize`.
* `getRegexes` is modelled at the level of the pattern texts (`regValues`,
  built by the same concatenations as the source) and a compiled
  `*regexp.Regexp` is its pattern text.  Matching is defined for the anchored
  patterns `^p$` the parser consults: the syntax tree `p` is written next to
  the text and checked to print back as that text.  The statements that fill
  `regValues` are also kept one by one (`statements`), to follow the order in
  which the fragments are built.
* The matcher works by derivatives; it is proved to decide the usual denotation
  of a regular expression (`Regex.Lang`), and the grammar in the words of the
  specification is stated on that denotation (namespace `Spec`).
* A Go call either returns or panics: `Outcome`.  A `(*SemVer, error)` result
  is a pair of optional values, `none` standing for `nil`.
* `fmt.Println` only writes to standard output and is not modelled.
-/

namespace Semver

set_option maxRecDepth 200000

/-! ## Strings -/

/-- Go `len(s)`: the number of bytes of the string. -/
def len (s : String) : Nat := s.utf8ByteSize

/-- Go `unicode.IsSpace`: the Latin-1 spaces and the code points with the
Unicode White_Space property. -/
def isSpace (c : Char) : Bool :=
  let n := c.toNat
  n == 0x09 || n == 0x0A || n == 0x0B || n == 0x0C || n == 0x0D || n == 0x20 ||
  n == 0x85 || n == 0xA0 || n == 0x1680 || (0x2000 ≤ n && n ≤ 0x200A) ||
  n == 0x2028 || n == 0x2029 || n == 0x202F || n == 0x205F || n == 0x3000

/-- Drop the leading white space of a list of characters. -/
def trimLeft : List Char → List Char
  | [] => []
  | c :: cs => if isSpace c then trimLeft cs else c :: cs

/-- Drop the trailing white space of a list of characters. -/
def trimRight (cs : List Char) : List Char := (trimLeft cs.reverse).reverse

/-- Go `strings.TrimSpace`: the string without its leading and trailing
white space. -/
def TrimSpace (s : String) : String := ⟨trimRight (trimLeft s.data)⟩

/-- Position of the first occurrence of `sub` in `cs` when there is one. -/
def indexFrom (sub : List Char) : List Char → Nat → Option Nat
  | [], i => if sub = [] then some i else none
  | c :: cs, i => if sub.isPrefixOf (c :: cs) then some i else indexFrom sub cs (i + 1)

/-- Go `strings.Index`: the index of the first occurrence of `sub` in `s`,
or `-1` when there is none (an index counts characters here; the only test
made on it by the program is `== 0`). -/
def Index (s sub : String) : Int :=
  match indexFrom sub.data s.data 0 with
  | some i => (i : Int)
  | none => -1

/-- Replace the first occurrence of the non-empty `old` by `new`. -/
def replaceFirst (old new : List Char) : List Char → List Char
  | [] => []
  | c :: cs =>
    if old.isPrefixOf (c :: cs) then new ++ (c :: cs).drop old.length
    else c :: replaceFirst old new cs

/-- Go `strings.Replace(s, old, new, 1)` for a non-empty `old`: the first
occurrence of `old` is replaced by `new`. -/
def Replace1 (s old new : String) : String := ⟨replaceFirst old.data new.data s.data⟩

/-! ## Regular expressions -/

/-- Syntax trees of the regular expressions used by the grammar. -/
inductive Regex where
  /-- the pattern that matches no string -/
  | nothing : Regex
  /-- the empty pattern -/
  | eps : Regex
  /-- a character class given by inclusive ranges, such as `[a-zA-Z-]` -/
  | cls (ranges : List (Char × Char)) : Regex
  /-- alternation `a|b` -/
  | alt (a b : Regex) : Regex
  /-- concatenation `ab` -/
  | seq (a b : Regex) : Regex
  /-- repetition `a*` -/
  | star (a : Regex) : Regex
  deriving Repr, DecidableEq

namespace Regex

/-- A literal character. -/
def chr (c : Char) : Regex := cls [(c, c)]

/-- Pattern `a?`. -/
def opt (a : Regex) : Regex := alt a eps

/-- Pattern `a+`. -/
def plus (a : Regex) : Regex := seq a (star a)

/-- Membership of a character in a class. -/
def inClass (ranges : List (Char × Char)) (c : Char) : Bool :=
  ranges.any fun r => r.1.toNat ≤ c.toNat && c.toNat ≤ r.2.toNat

/-- Does the pattern match the empty string? -/
def nullable : Regex → Bool
  | nothing => false
  | eps => true
  | cls _ => false
  | alt a b => nullable a || nullable b
  | seq a b => nullable a && nullable b
  | star _ => true

/-- Concatenation that absorbs the patterns `nothing` and `eps` on the left. -/
def mkSeq : Regex → Regex → Regex
  | nothing, _ => nothing
  | eps, b => b
  | a, b => seq a b

/-- Alternation that absorbs the pattern `nothing`. -/
def mkAlt : Regex → Regex → Regex
  | nothing, b => b
  | a, nothing => a
  | a, b => alt a b

/-- Brzozowski derivative: the pattern of the strings `w` such that `c :: w`
matches the given pattern. -/
def deriv : Regex → Char → Regex
  | nothing, _ => nothing
  | eps, _ => nothing
  | cls rs, c => if inClass rs c then eps else nothing
  | alt a b, c => mkAlt (deriv a c) (deriv b c)
  | seq a b, c =>
    if nullable a then mkAlt (mkSeq (deriv a c) b) (deriv b c)
    else mkSeq (deriv a c) b
  | star a, c => mkSeq (deriv a c) (star a)

/-- Does the pattern match the whole list of characters? -/
def matchesList : Regex → List Char → Bool
  | r, [] => nullable r
  | r, c :: cs => matchesList (deriv r c) cs

/-- The strings a pattern denotes: the usual semantics of regular expressions,
against which the derivative matcher is checked. -/
def Lang : Regex → List Char → Prop
  | nothing, _ => False
  | eps, s => s = []
  | cls rs, s => ∃ c, s = [c] ∧ inClass rs c = true
  | alt a b, s => Lang a s ∨ Lang b s
  | seq a b, s => ∃ s1 s2, s = s1 ++ s2 ∧ Lang a s1 ∧ Lang b s2
  | star a, s => ∃ L : List (List Char), s = L.flatten ∧ ∀ x ∈ L, Lang a x

end Regex

/-! ## Surface syntax of the patterns -/

/-- An item of a bracketed character class. -/
inductive ClassItem where
  /-- a single character, as `v` in `[v=]` -/
  | one (c : Char) : ClassItem
  /-- a range `lo-hi` -/
  | range (lo hi : Char) : ClassItem
  /-- the Perl class `\s` inside brackets -/
  | space : ClassItem
  deriving Repr, DecidableEq

/-- Surface syntax of a pattern, as written in the pattern text. -/
inductive Pat where
  /-- an ordinary character standing for itself -/
  | lit (c : Char) : Pat
  /-- an escaped punctuation character, as `\.` -/
  | esc (c : Char) : Pat
  /-- the Perl class `\d` -/
  | digit : Pat
  /-- a bracketed class `[...]` -/
  | set (items : List ClassItem) : Pat
  /-- a capturing group `(p)` -/
  | cap (p : Pat) : Pat
  /-- a non-capturing group `(?:p)` -/
  | ncap (p : Pat) : Pat
  /-- pattern `p?` -/
  | opt (p : Pat) : Pat
  /-- pattern `p*` -/
  | star (p : Pat) : Pat
  /-- pattern `p+` -/
  | plus (p : Pat) : Pat
  /-- concatenation -/
  | seq (p q : Pat) : Pat
  /-- alternation `p|q` -/
  | alt (p q : Pat) : Pat
  deriving Repr, DecidableEq

/-- Text of a class item. -/
def ClassItem.render : ClassItem → String
  | .one c => String.singleton c
  | .range lo hi => String.singleton lo ++ "-" ++ String.singleton hi
  | .space => "\\s"

/-- Ranges denoted by a class item; `\s` is `[\t\n\f\r ]`. -/
def ClassItem.ranges : ClassItem → List (Char × Char)
  | .one c => [(c, c)]
  | .range lo hi => [(lo, hi)]
  | .space => [(Char.ofNat 9, Char.ofNat 10), (Char.ofNat 12, Char.ofNat 13), (' ', ' ')]

namespace Pat

/-- Pattern text of a syntax tree. -/
def render : Pat → String
  | lit c => String.singleton c
  | esc c => "\\" ++ String.singleton c
  | digit => "\\d"
  | set items => "[" ++ String.join (items.map ClassItem.render) ++ "]"
  | cap p => "(" ++ render p ++ ")"
  | ncap p => "(?:" ++ render p ++ ")"
  | opt p => render p ++ "?"
  | star p => render p ++ "*"
  | plus p => render p ++ "+"
  | seq p q => render p ++ render q
  | alt p q => render p ++ "|" ++ render q

/-- Binding strength of the outermost operator: 0 alternation, 1 concatenation,
2 repetition, 3 atom. -/
def prec : Pat → Nat
  | alt _ _ => 0
  | seq _ _ => 1
  | opt _ => 2
  | star _ => 2
  | plus _ => 2
  | _ => 3

/-- Characters with a special meaning in the pattern syntax. -/
def isMeta (c : Char) : Bool := "\\.+*?()|[]^$\x7b\x7d".data.contains c

/-- The text of the tree reads back as the same tree: operands bind at least
as tightly as their position requires, literals are not special characters and
a hyphen standing for itself is the last item of its class. -/
def wellFormed : Pat → Bool
  | lit c => !isMeta c
  | esc c => isMeta c
  | digit => true
  | set items =>
    !items.isEmpty && items.dropLast.all (fun i => i != ClassItem.one '-') &&
    items.all fun i =>
      match i with
      | .one c => c != ']' && c != '\\' && c != '^'
      | .range lo hi => lo.toNat ≤ hi.toNat && lo.isAlphanum && hi.isAlphanum
      | .space => true
  | cap p => wellFormed p
  | ncap p => wellFormed p
  | opt p => prec p == 3 && wellFormed p
  | star p => prec p == 3 && wellFormed p
  | plus p => prec p == 3 && wellFormed p
  | seq p q => 1 ≤ prec p && 1 ≤ prec q && wellFormed p && wellFormed q
  | alt p q => wellFormed p && wellFormed q

/-- Regular expression denoted by a syntax tree; groups are transparent. -/
def compile : Pat → Regex
  | lit c => Regex.chr c
  | esc c => Regex.chr c
  | digit => Regex.cls [('0', '9')]
  | set items => Regex.cls (items.flatMap ClassItem.ranges)
  | cap p => compile p
  | ncap p => compile p
  | opt p => Regex.opt (compile p)
  | star p => Regex.star (compile p)
  | plus p => Regex.plus (compile p)
  | seq p q => Regex.seq (compile p) (compile q)
  | alt p q => Regex.alt (compile p) (compile q)

end Pat

/-! ## The grammar (`regex.go`) -/

/-- A Go `map[string]string`, most recent assignment first. -/
abbrev StringMap := List (String × String)

/-- Go `m[key]` on a `map[string]string`: the empty string for a missing key. -/
def StringMap.get (m : StringMap) (key : String) : String :=
  match m.lookup key with
  | some v => v
  | none => ""

/-- Go `m[key] = value`. -/
def StringMap.set (m : StringMap) (key value : String) : StringMap :=
  (key, value) :: m.filter fun kv => kv.1 != key

/-- The map `regValues` of `getRegexes` at the end of the assignments: every
fragment text, built by the concatenations of the source in their order. -/
def regValues : StringMap :=
  let regValues : StringMap := []
  let regValues := regValues.set "NUMERICIDENTIFIER" "0|[1-9]\\d*"
  let regValues := regValues.set "NUMERICIDENTIFIERLOOSE" "[0-9]+"
  let regValues := regValues.set "NONNUMERICIDENTIFIER" "\\d*[a-zA-Z-][a-zA-Z0-9-]*"
  let regValues := regValues.set "NONNUMERICIDENTIFIER" "\\d*[a-zA-Z-][a-zA-Z0-9-]*"
  let regValues := regValues.set "MAINVERSION" ("(" ++ regValues.get "NUMERICIDENTIFIER" ++ ")\\." ++
    "(" ++ regValues.get "NUMERICIDENTIFIER" ++ ")\\." ++
    "(" ++ regValues.get "NUMERICIDENTIFIER" ++ ")")
  let regValues := regValues.set "MAINVERSIONLOOSE" ("(" ++ regValues.get "NUMERICIDENTIFIERLOOSE" ++ ")\\." ++
    "(" ++ regValues.get "NUMERICIDENTIFIERLOOSE" ++ ")\\." ++
    "(" ++ regValues.get "NUMERICIDENTIFIERLOOSE" ++ ")")
  let regValues := regValues.set "PRERELEASEIDENTIFIER" ("(?:" ++ regValues.get "NUMERICIDENTIFIER" ++
    "|" ++ regValues.get "NONNUMERICIDENTIFIER" ++ ")")
  let regValues := regValues.set "PRERELEASEIDENTIFIERLOOSE" ("(?:" ++ regValues.get "NUMERICIDENTIFIERLOOSE" ++
    "|" ++ regValues.get "NONNUMERICIDENTIFIER" ++ ")")
  let regValues := regValues.set "PRERELEASE" ("(?:-(" ++ regValues.get "PRERELEASEIDENTIFIER" ++
    "(?:\\." ++ regValues.get "PRERELEASEIDENTIFIER" ++ ")*))")
  let regValues := regValues.set "PRERELEASELOOSE" ("(?:-?(" ++ regValues.get "PRERELEASEIDENTIFIERLOOSE" ++
    "(?:\\." ++ regValues.get "PRERELEASEIDENTIFIERLOOSE" ++ ")*))")
  let regValues := regValues.set "BUILDIDENTIFIER" "[0-9A-Za-z-]+"
  let regValues := regValues.set "BUILD" ("(?:\\+(" ++ regValues.get "BUILDIDENTIFIER" ++
    "(?:\\." ++ regValues.get "BUILDIDENTIFIER" ++ ")*))")
  let FULLPLAIN := "v?" ++ regValues.get "MAINVERSION" ++
    regValues.get "PRERELEASE" ++ "?" ++
    regValues.get "BUILD" ++ "?"
  let regValues := regValues.set "FULL" ("^" ++ FULLPLAIN ++ "$")
  let LOOSEPLAIN := "[v=\\s]*" ++ regValues.get "MAINVERSIONLOOSE" ++
    regValues.get "PRERELEASELOOSE" ++ "?" ++
    regValues.get "BUILD" ++ "?"
  let regValues := regValues.set "LOOSE" ("^" ++ LOOSEPLAIN ++ "$")
  let regValues := regValues.set "GTLT" "((?:<|>)?=?)"
  let regValues := regValues.set "XRANGEIDENTIFIERLOOSE" (regValues.get "NUMERICIDENTIFIERLOOSE" ++ "|x|X|\\*")
  let regValues := regValues.set "XRANGEIDENTIFIER" (regValues.get "NUMERICIDENTIFIER" ++ "|x|X|\\*")
  let regValues := regValues.set "XRANGEPLAIN" ("[v=\\s]*(" ++ regValues.get "XRANGEIDENTIFIER" ++ ")" ++
    "(?:\\.(" ++ regValues.get "XRANGEIDENTIFIER" ++ ")" ++
    "(?:\\.(" ++ regValues.get "XRANGEIDENTIFIER" ++ ")" ++
    "(?:" ++ regValues.get "PRERELEASE" ++ ")?" ++
    regValues.get "BUILD" ++ "?" ++
    ")?)?")
  let regValues := regValues.set "XRANGEPLAINLOOSE" ("[v=\\s]*(" ++ regValues.get "XRANGEIDENTIFIERLOOSE" ++ ")" ++
    "(?:\\.(" ++ regValues.get "XRANGEIDENTIFIERLOOSE" ++ ")" ++
    "(?:\\.(" ++ regValues.get "XRANGEIDENTIFIERLOOSE" ++ ")" ++
    "(?:" ++ regValues.get "PRERELEASELOOSE" ++ ")?" ++
    regValues.get "BUILD" ++ "?" ++
    ")?)?")
  let regValues := regValues.set "XRANGE" ("^" ++ regValues.get "GTLT" ++ "\\s*" ++ regValues.get "XRANGEPLAIN" ++ "$")
  let regValues := regValues.set "XRANGELOOSE" ("^" ++ regValues.get "GTLT" ++ "\\s*" ++ regValues.get "XRANGEPLAINLOOSE" ++ "$")
  let regValues := regValues.set "LONETILDE" "(?:~>?)"
  let regValues := regValues.set "TILDETRIM" ("(\\s*)" ++ regValues.get "LONETILDE" ++ "\\s+")
  let regValues := regValues.set "TILDE" ("^" ++ regValues.get "LONETILDE" ++ regValues.get "XRANGEPLAIN" ++ "$")
  let regValues := regValues.set "TILDELOOSE" ("^" ++ regValues.get "LONETILDE" ++ regValues.get "XRANGEPLAINLOOSE" ++ "$")
  let regValues := regValues.set "LONECARET" "(?:\\^)"
  let regValues := regValues.set "CARETTRIM" ("(\\s*)" ++ regValues.get "LONECARET" ++ "\\s+")
  let regValues := regValues.set "CARET" ("^" ++ regValues.get "LONECARET" ++ regValues.get "XRANGEPLAIN" ++ "$")
  let regValues := regValues.set "CARETLOOSE" ("^" ++ regValues.get "LONECARET" ++ regValues.get "XRANGEPLAINLOOSE" ++ "$")
  let regValues := regValues.set "COMPARATORLOOSE" ("^" ++ regValues.get "GTLT" ++ "\\s*(" ++ LOOSEPLAIN ++ ")$|^$")
  let regValues := regValues.set "COMPARATOR" ("^" ++ regValues.get "GTLT" ++ "\\s*(" ++ FULLPLAIN ++ ")$|^$")
  let regValues := regValues.set "COMPARATORTRIM" ("(\\s*)" ++ regValues.get "GTLT" ++
    "\\s*(" ++ LOOSEPLAIN ++ "|" ++ regValues.get "XRANGEPLAIN" ++ ")")
  let regValues := regValues.set "HYPHENRANGE" ("^\\s*(" ++ regValues.get "XRANGEPLAIN" ++ ")" ++
    "\\s+-\\s+" ++
    "(" ++ regValues.get "XRANGEPLAIN" ++ ")" ++
    "\\s*$")
  let regValues := regValues.set "HYPHENRANGELOOSE" ("^\\s*(" ++ regValues.get "XRANGEPLAINLOOSE" ++ ")" ++
    "\\s+-\\s+" ++
    "(" ++ regValues.get "XRANGEPLAINLOOSE" ++ ")" ++
    "\\s*$")
  let regValues := regValues.set "STAR" "(<|>)?=?\\s*\\*"
  regValues

/-! ## The assignments of `getRegexes`, one by one -/

/-- An operand of the concatenation on the right-hand side of an assignment of
`getRegexes`. -/
inductive Operand where
  /-- a string literal -/
  | text (s : String) : Operand
  /-- the map access `regValues[key]` -/
  | frag (key : String) : Operand
  /-- a local variable, `FULLPLAIN` or `LOOSEPLAIN` -/
  | var (name : String) : Operand
  deriving Repr, DecidableEq

/-- A statement of the first part of `getRegexes`. -/
inductive Statement where
  /-- the assignment `regValues[key] = rhs` -/
  | assign (key : String) (rhs : List Operand) : Statement
  /-- the declaration `name := rhs` of a local variable -/
  | define (name : String) (rhs : List Operand) : Statement
  deriving Repr, DecidableEq

/-- The map `regValues` and the local variables while `getRegexes` runs. -/
structure Builder where
  regValues : StringMap
  locals : StringMap
  deriving Repr, DecidableEq

/-- The state at the start: `make(map[string]string)` and no local variable. -/
def Builder.init : Builder := ⟨[], []⟩

/-- The value of an operand; a missing key gives the empty string. -/
def Operand.eval (b : Builder) : Operand → String
  | .text s => s
  | .frag key => b.regValues.get key
  | .var name => b.locals.get name

/-- The operands of a statement. -/
def Statement.rhs : Statement → List Operand
  | .assign _ rhs => rhs
  | .define _ rhs => rhs

/-- The keys `regValues[key]` a statement reads. -/
def Statement.reads (st : Statement) : List String :=
  st.rhs.filterMap fun o =>
    match o with
    | .frag key => some key
    | _ => none

/-- The local variables a statement reads. -/
def Statement.readsLocal (st : Statement) : List String :=
  st.rhs.filterMap fun o =>
    match o with
    | .var name => some name
    | _ => none

/-- The key a statement assigns, when it assigns one. -/
def Statement.target : Statement → Option String
  | .assign key _ => some key
  | .define _ _ => none

/-- Execution of a statement: the operands are concatenated from left to right. -/
def Statement.exec (b : Builder) (st : Statement) : Builder :=
  let value := st.rhs.foldl (fun acc o => acc ++ o.eval b) ""
  match st with
  | .assign key _ => { b with regValues := b.regValues.set key value }
  | .define name _ => { b with locals := b.locals.set name value }

/-- The statements of `getRegexes` that fill `regValues`, in the order of the
source. -/
def statements : List Statement := [
  .assign "NUMERICIDENTIFIER" [.text "0|[1-9]\\d*"],
  .assign "NUMERICIDENTIFIERLOOSE" [.text "[0-9]+"],
  .assign "NONNUMERICIDENTIFIER" [.text "\\d*[a-zA-Z-][a-zA-Z0-9-]*"],
  .assign "NONNUMERICIDENTIFIER" [.text "\\d*[a-zA-Z-][a-zA-Z0-9-]*"],
  .assign "MAINVERSION" [.text "(", .frag "NUMERICIDENTIFIER", .text ")\\.", .text "(",
    .frag "NUMERICIDENTIFIER", .text ")\\.", .text "(", .frag "NUMERICIDENTIFIER", .text ")"],
  .assign "MAINVERSIONLOOSE" [.text "(", .frag "NUMERICIDENTIFIERLOOSE", .text ")\\.", .text "(",
    .frag "NUMERICIDENTIFIERLOOSE", .text ")\\.", .text "(", .frag "NUMERICIDENTIFIERLOOSE",
    .text ")"],
  .assign "PRERELEASEIDENTIFIER" [.text "(?:", .frag "NUMERICIDENTIFIER", .text "|",
    .frag "NONNUMERICIDENTIFIER", .text ")"],
  .assign "PRERELEASEIDENTIFIERLOOSE" [.text "(?:", .frag "NUMERICIDENTIFIERLOOSE", .text "|",
    .frag "NONNUMERICIDENTIFIER", .text ")"],
  .assign "PRERELEASE" [.text "(?:-(", .frag "PRERELEASEIDENTIFIER", .text "(?:\\.",
    .frag "PRERELEASEIDENTIFIER", .text ")*))"],
  .assign "PRERELEASELOOSE" [.text "(?:-?(", .frag "PRERELEASEIDENTIFIERLOOSE", .text "(?:\\.",
    .frag "PRERELEASEIDENTIFIERLOOSE", .text ")*))"],
  .assign "BUILDIDENTIFIER" [.text "[0-9A-Za-z-]+"],
  .assign "BUILD" [.text "(?:\\+(", .frag "BUILDIDENTIFIER", .text "(?:\\.",
    .frag "BUILDIDENTIFIER", .text ")*))"],
  .define "FULLPLAIN" [.text "v?", .frag "MAINVERSION", .frag "PRERELEASE", .text "?",
    .frag "BUILD", .text "?"],
  .assign "FULL" [.text "^", .var "FULLPLAIN", .text "$"],
  .define "LOOSEPLAIN" [.text "[v=\\s]*", .frag "MAINVERSIONLOOSE", .frag "PRERELEASELOOSE",
    .text "?", .frag "BUILD", .text "?"],
  .assign "LOOSE" [.text "^", .var "LOOSEPLAIN", .text "$"],
  .assign "GTLT" [.text "((?:<|>)?=?)"],
  .assign "XRANGEIDENTIFIERLOOSE" [.frag "NUMERICIDENTIFIERLOOSE", .text "|x|X|\\*"],
  .assign "XRANGEIDENTIFIER" [.frag "NUMERICIDENTIFIER", .text "|x|X|\\*"],
  .assign "XRANGEPLAIN" [.text "[v=\\s]*(", .frag "XRANGEIDENTIFIER", .text ")", .text "(?:\\.(",
    .frag "XRANGEIDENTIFIER", .text ")", .text "(?:\\.(", .frag "XRANGEIDENTIFIER", .text ")",
    .text "(?:", .frag "PRERELEASE", .text ")?", .frag "BUILD", .text "?", .text ")?)?"],
  .assign "XRANGEPLAINLOOSE" [.text "[v=\\s]*(", .frag "XRANGEIDENTIFIERLOOSE", .text ")",
    .text "(?:\\.(", .frag "XRANGEIDENTIFIERLOOSE", .text ")", .text "(?:\\.(",
    .frag "XRANGEIDENTIFIERLOOSE", .text ")", .text "(?:", .frag "PRERELEASELOOSE", .text ")?",
    .frag "BUILD", .text "?", .text ")?)?"],
  .assign "XRANGE" [.text "^", .frag "GTLT", .text "\\s*", .frag "XRANGEPLAIN", .text "$"],
  .assign "XRANGELOOSE" [.text "^", .frag "GTLT", .text "\\s*", .frag "XRANGEPLAINLOOSE",
    .text "$"],
  .assign "LONETILDE" [.text "(?:~>?)"],
  .assign "TILDETRIM" [.text "(\\s*)", .frag "LONETILDE", .text "\\s+"],
  .assign "TILDE" [.text "^", .frag "LONETILDE", .frag "XRANGEPLAIN", .text "$"],
  .assign "TILDELOOSE" [.text "^", .frag "LONETILDE", .frag "XRANGEPLAINLOOSE", .text "$"],
  .assign "LONECARET" [.text "(?:\\^)"],
  .assign "CARETTRIM" [.text "(\\s*)", .frag "LONECARET", .text "\\s+"],
  .assign "CARET" [.text "^", .frag "LONECARET", .frag "XRANGEPLAIN", .text "$"],
  .assign "CARETLOOSE" [.text "^", .frag "LONECARET", .frag "XRANGEPLAINLOOSE", .text "$"],
  .assign "COMPARATORLOOSE" [.text "^", .frag "GTLT", .text "\\s*(", .var "LOOSEPLAIN",
    .text ")$|^$"],
  .assign "COMPARATOR" [.text "^", .frag "GTLT", .text "\\s*(", .var "FULLPLAIN", .text ")$|^$"],
  .assign "COMPARATORTRIM" [.text "(\\s*)", .frag "GTLT", .text "\\s*(", .var "LOOSEPLAIN",
    .text "|", .frag "XRANGEPLAIN", .text ")"],
  .assign "HYPHENRANGE" [.text "^\\s*(", .frag "XRANGEPLAIN", .text ")", .text "\\s+-\\s+",
    .text "(", .frag "XRANGEPLAIN", .text ")", .text "\\s*$"],
  .assign "HYPHENRANGELOOSE" [.text "^\\s*(", .frag "XRANGEPLAINLOOSE", .text ")",
    .text "\\s+-\\s+", .text "(", .frag "XRANGEPLAINLOOSE", .text ")", .text "\\s*$"],
  .assign "STAR" [.text "(<|>)?=?\\s*\\*"]]

/-- The state before the statement number `i` runs. -/
def stateBefore (i : Nat) : Builder := (statements.take i).foldl Statement.exec Builder.init

/-- The keys assigned by the statements. -/
def assignedKeys : List String := statements.filterMap Statement.target

/-! ## Syntax trees of the single-version grammar -/

namespace Grammar

open Pat ClassItem

/-- Syntax of `0|[1-9]\d*`. -/
def NUMERICIDENTIFIER : Pat := alt (lit '0') (seq (set [range '1' '9']) (star digit))

/-- Syntax of `[0-9]+`. -/
def NUMERICIDENTIFIERLOOSE : Pat := plus (set [range '0' '9'])

/-- Syntax of `\d*[a-zA-Z-][a-zA-Z0-9-]*`. -/
def NONNUMERICIDENTIFIER : Pat :=
  seq (star digit) (seq (set [range 'a' 'z', range 'A' 'Z', one '-'])
    (star (set [range 'a' 'z', range 'A' 'Z', range '0' '9', one '-'])))

/-- Three dot-separated numeric identifiers, each in a capturing group. -/
def MAINVERSION : Pat :=
  seq (cap NUMERICIDENTIFIER) (seq (esc '.')
    (seq (cap NUMERICIDENTIFIER) (seq (esc '.') (cap NUMERICIDENTIFIER))))

/-- Three dot-separated loose numeric identifiers. -/
def MAINVERSIONLOOSE : Pat :=
  seq (cap NUMERICIDENTIFIERLOOSE) (seq (esc '.')
    (seq (cap NUMERICIDENTIFIERLOOSE) (seq (esc '.') (cap NUMERICIDENTIFIERLOOSE))))

/-- A numeric identifier, or a non-numeric identifier. -/
def PRERELEASEIDENTIFIER : Pat := ncap (alt NUMERICIDENTIFIER NONNUMERICIDENTIFIER)

/-- A loose numeric identifier, or a non-numeric identifier. -/
def PRERELEASEIDENTIFIERLOOSE : Pat := ncap (alt NUMERICIDENTIFIERLOOSE NONNUMERICIDENTIFIER)

/-- Hyphen, followed by one or more dot-separated pre-release identifiers. -/
def PRERELEASE : Pat :=
  ncap (seq (lit '-') (cap (seq PRERELEASEIDENTIFIER
    (star (ncap (seq (esc '.') PRERELEASEIDENTIFIER))))))

/-- Optional hyphen, followed by one or more dot-separated loose pre-release
identifiers. -/
def PRERELEASELOOSE : Pat :=
  ncap (seq (opt (lit '-')) (cap (seq PRERELEASEIDENTIFIERLOOSE
    (star (ncap (seq (esc '.') PRERELEASEIDENTIFIERLOOSE))))))

/-- Syntax of `[0-9A-Za-z-]+`. -/
def BUILDIDENTIFIER : Pat := plus (set [range '0' '9', range 'A' 'Z', range 'a' 'z', one '-'])

/-- Plus sign, followed by one or more period-separated build identifiers. -/
def BUILD : Pat :=
  ncap (seq (esc '+') (cap (seq BUILDIDENTIFIER
    (star (ncap (seq (esc '.') BUILDIDENTIFIER))))))

/-- A main version, followed optionally by a pre-release version and build
metadata, after an optional `v`. -/
def FULLPLAIN : Pat :=
  seq (opt (lit 'v')) (seq MAINVERSION (seq (opt PRERELEASE) (opt BUILD)))

/-- Like `FULLPLAIN` with the loose fragments, after any run of `v`, `=` and
white space. -/
def LOOSEPLAIN : Pat :=
  seq (star (set [one 'v', one '=', space]))
    (seq MAINVERSIONLOOSE (seq (opt PRERELEASELOOSE) (opt BUILD)))

end Grammar

/-- A compiled pattern (`*regexp.Regexp`), identified by its pattern text. -/
structure Regexp where
  /-- the text the pattern was compiled from -/
  expr : String
  deriving Repr, DecidableEq

/-- Go `regexp.Compile`.  Every text built by `getRegexes` is a valid pattern,
so the error result of the compilation is always `nil`. -/
def Compile (expr : String) : Regexp := ⟨expr⟩

/-- Syntax trees of the anchored patterns `^p$` whose matching is modelled. -/
def anchoredSyntax : List Pat := [Grammar.FULLPLAIN, Grammar.LOOSEPLAIN]

/-- The regular expression `p` of a compiled pattern whose text is `^p$`, for
the syntax trees of `anchoredSyntax`. -/
def Regexp.body (re : Regexp) : Option Regex :=
  (anchoredSyntax.find? fun p => p.wellFormed && re.expr == "^" ++ p.render ++ "$").map
    Pat.compile

/-- Go `re.MatchString(s)` for a pattern `^p$` (no flags): `p` matches the
whole of `s`. -/
def Regexp.MatchString (re : Regexp) (s : String) : Bool :=
  match re.body with
  | some r => r.matchesList s.data
  | none => false

/-- Go `re.FindAllString(s, -1)` for a pattern `^p$` (no flags): the successive
non-overlapping matches of the pattern in `s`.  A match starts where `^` holds,
at offset 0, and ends where `$` holds, at the end of `s`; the search resumed at
the end of that match finds nothing.  So the result is `[s]` when `p` matches
the whole of `s` and `nil` otherwise. -/
def Regexp.FindAllString (re : Regexp) (s : String) : List String :=
  if re.MatchString s then [s] else []

/-- A Go `map[string]*regexp.Regexp`. -/
abbrev RegexpMap := List (String × Regexp)

/-- Go `getRegexes`: every pattern text of `regValues` compiled under its key.
Compilation of these texts does not fail, so `panicIfError(err, key)` never
panics. -/
def getRegexes : RegexpMap :=
  regValues.map fun kv => (kv.1, Compile kv.2)

/-! ## Errors, panics and integer conversion -/

/-- Kind of failure of a numeric conversion (`strconv.ErrSyntax`,
`strconv.ErrRange`). -/
inductive NumErr where
  | errSyntax : NumErr
  | errRange : NumErr
  deriving Repr, DecidableEq

/-- A non-nil Go `error` value. -/
inductive GoError where
  /-- the value of `errors.New(text)` -/
  | new (text : String) : GoError
  /-- a `*strconv.NumError` with its function name, input and kind -/
  | numError (func num : String) (err : NumErr) : GoError
  deriving Repr, DecidableEq

/-- The value a panic carries. -/
inductive PanicValue where
  /-- the call `panic(err)` -/
  | error (err : GoError) : PanicValue
  /-- run-time panic of an index expression: index and length of the slice -/
  | indexOutOfRange (index length : Nat) : PanicValue
  /-- run-time panic of a method call through a nil pointer -/
  | nilDereference : PanicValue
  deriving Repr, DecidableEq

/-- Outcome of a Go call: it returns a value or it panics. -/
inductive Outcome (α : Type) where
  | ret (a : α) : Outcome α
  | panic (v : PanicValue) : Outcome α
  deriving Repr, DecidableEq

/-- Sequencing of calls: a panic ends the computation. -/
def Outcome.bind {α β : Type} (x : Outcome α) (f : α → Outcome β) : Outcome β :=
  match x with
  | .ret a => f a
  | .panic v => .panic v

instance : Monad Outcome where
  pure := Outcome.ret
  bind := Outcome.bind

/-- Largest value of the 64-bit Go `int`. -/
def maxInt : Int := 2 ^ 63 - 1

/-- Smallest value of the 64-bit Go `int`. -/
def minInt : Int := -(2 ^ 63)

/-- Digit loop of `strconv.ParseUint(s, 10, 64)`: the value of the digits
read so far is `n`. -/
def parseUintLoop : List Char → Nat → Except NumErr Nat
  | [], n => .ok n
  | c :: cs, n =>
    if !c.isDigit then .error .errSyntax
    else if n ≥ (2 ^ 64 - 1) / 10 + 1 then .error .errRange
    else
      let n1 := n * 10 + (c.toNat - '0'.toNat)
      if n1 > 2 ^ 64 - 1 then .error .errRange else parseUintLoop cs n1

/-- Go `strconv.ParseInt(s, 10, 0)` on a 64-bit platform: value and kind of
failure. -/
def parseInt (s : List Char) : Int × Option NumErr :=
  match s with
  | [] => (0, some .errSyntax)
  | c :: cs =>
    let neg := c == '-'
    let digits := if c == '+' || c == '-' then cs else c :: cs
    if digits.isEmpty then (0, some .errSyntax)
    else
      match parseUintLoop digits 0 with
      | .error .errSyntax => (0, some .errSyntax)
      | .error .errRange => if neg then (minInt, some .errRange) else (maxInt, some .errRange)
      | .ok un =>
        if !neg && un ≥ 2 ^ 63 then (maxInt, some .errRange)
        else if neg && un > 2 ^ 63 then (minInt, some .errRange)
        else (if neg then -(un : Int) else (un : Int), none)

/-- Go `strconv.Atoi(s)`: the integer and the error (the fast path for short
inputs computes the same result as `ParseInt(s, 10, 0)`). -/
def Atoi (s : String) : Int × Option GoError :=
  match parseInt s.data with
  | (n, some e) => (n, some (.numError "Atoi" s e))
  | (n, none) => (n, none)

/-! ## The program (`util.go`, `semver.go`, `parse.go`) -/

/-- Go `panicIfError(err, message)`: panics with `err` when it is not nil (the
message is only printed). -/
def panicIfError (err : Option GoError) ( _message : String) : Outcome Unit :=
  match err with
  | some e => .panic (.error e)
  | none => .ret ()

/-- The struct `SemVer`. -/
structure SemVer where
  raw : String
  major : Int
  minor : Int
  patch : Int
  preRelease : String
  metadata : String
  loose : String
  deriving Repr, DecidableEq

/-- The zero value `new(SemVer)`. -/
def SemVer.zero : SemVer := ⟨"", 0, 0, 0, "", "", ""⟩

/-- Go `fmt.Sprintf("%d", n)`. -/
def formatInt (n : Int) : String := toString n

/-- Method `version`: `fmt.Sprintf("%d.%d.%d", s.major, s.minor, s.patch)`. -/
def SemVer.version (s : SemVer) : String :=
  formatInt s.major ++ "." ++ formatInt s.minor ++ "." ++ formatInt s.patch

/-- Constant `MAXLENGTH`: max size of semvar. -/
def MAXLENGTH : Nat := 256

/-- Constant `MaxUint64`: used to calculate max int. -/
def MaxUint64 : Nat := 2 ^ 64 - 1

/-- Go `testValid(version, regex)`: the body is `return true`. -/
def testValid ( _version : String) ( _regex : Option Regexp) : Bool := true

/-- Go `s[i]` on a slice of strings: panics when the index is out of range. -/
def index (s : List String) (i : Nat) : Outcome String :=
  match s.get? i with
  | some x => .ret x
  | none => .panic (.indexOutOfRange i s.length)

/-- The loop of `newSemVer` over the three conversion errors: the first one
that is not nil is passed to `panicIfError`. -/
def checkErrors : List (Option GoError) → Outcome Unit
  | [] => .ret ()
  | err :: rest => do
    if err ≠ none then
      panicIfError err "failed string to int conversion"
    checkErrors rest

/-- The compiled pattern under the key `"FULL"`. -/
def FULL : Regexp := Compile (regValues.get "FULL")

/-- The compiled pattern under the key `"LOOSE"`. -/
def LOOSE : Regexp := Compile (regValues.get "LOOSE")

/-- The variable `regex` of `newSemVer`: the pattern used for extraction. -/
def newSemVerRegex (regexs : RegexpMap) (loose : String) : Option Regexp :=
  if len loose > 0 then regexs.lookup "LOOSE" else regexs.lookup "FULL"

/-- The variable `tester` of `parse`: the pattern passed to `testValid`. -/
def parseTester (regexes : RegexpMap) (loose : String) : Option Regexp :=
  if loose = "loose" then regexes.lookup "LOOSE" else regexes.lookup "FULL"

/-- Go `newSemVer(version, loose)`. -/
def newSemVer (version loose : String) : Outcome (Option SemVer × Option GoError) := do
  let semver := SemVer.zero
  let semver := { semver with raw := TrimSpace version }
  let semver := { semver with loose := loose }
  let regexs := getRegexes
  let regex := newSemVerRegex regexs loose
  let matched ← match regex with
    | some re => Outcome.ret (re.FindAllString semver.raw)
    | none => Outcome.panic .nilDereference
  let m0 ← index matched 0
  let (major, err0) := Atoi m0
  let semver := { semver with major := major }
  let m1 ← index matched 1
  let (minor, err1) := Atoi m1
  let semver := { semver with minor := minor }
  let m2 ← index matched 2
  let (patch, err2) := Atoi m2
  let semver := { semver with patch := patch }
  checkErrors [err0, err1, err2]
  return (some semver, none)

/-- The error of `parse` for an input longer than `MAXLENGTH`. -/
def lengthError : GoError :=
  .new ("Version string longer than " ++ formatInt MAXLENGTH ++ " max length")

/-- The error of `parse` for an input that fails `testValid`. -/
def formatError : GoError := .new "Invalid semver format"

/-- Go `parse(version, loose)`. -/
def parse (version loose : String) : Outcome (Option SemVer × Option GoError) := do
  if len version > MAXLENGTH then
    return (none, some lengthError)
  else
    let regexes := getRegexes
    let tester := parseTester regexes loose
    if !testValid version tester then
      return (none, some formatError)
    else
      let (semver, err) ← newSemVer version loose
      if err ≠ none then
        panicIfError err "Creating new semver failed"
      return (semver, none)

/-- Go `semver.version()` through a `*SemVer`: a nil pointer panics. -/
def versionOf (semver : Option SemVer) : Outcome String :=
  match semver with
  | some s => .ret s.version
  | none => .panic .nilDereference

/-- Go `valid(version, loose)`. -/
def valid (version loose : String) : Outcome String := do
  let (semver, err) ← parse version loose
  if err ≠ none then
    panicIfError err "Parse failed"
  versionOf semver

/-- Go `clean(version, loose)`. -/
def clean (version loose : String) : Outcome String := do
  let trimmedVersion := TrimSpace version
  let trimmedVersion :=
    if Index trimmedVersion "v" = 0 then Replace1 trimmedVersion "v" "" else trimmedVersion
  let (semver, err) ← parse trimmedVersion loose
  if err ≠ none then
    panicIfError err "Parse failed"
  versionOf semver

/-- Normalisation of `clean` in the words of the specification: the input
without its leading and trailing white space and then, when it begins with the
character `v`, without exactly that one leading `v`. -/
def normalised (x : String) : String :=
  match (TrimSpace x).data with
  | 'v' :: rest => ⟨rest⟩
  | _ => TrimSpace x

/-- A string of `n` copies of the character `c`. -/
def repeatChar (n : Nat) (c : Char) : String := ⟨List.replicate n c⟩

/-! ## The grammar in the words of the specification -/

namespace Spec

/-- A letter, a digit or a hyphen. -/
def identChar (c : Char) : Bool := c.isAlpha || c.isDigit || c == '-'

/-- White space in the sense of the pattern syntax: tab, newline, form feed,
carriage return, space. -/
def patternSpace (c : Char) : Bool :=
  c == '\t' || c == '\n' || c == Char.ofNat 12 || c == '\r' || c == ' '

/-- One or more strings with the property `P`, joined by dots. -/
def DotJoined (P : List Char → Prop) (s : List Char) : Prop :=
  ∃ ids : List (List Char), ids ≠ [] ∧ s = ['.'].intercalate ids ∧ ∀ x ∈ ids, P x

/-- The digit `0`, or a non-zero digit followed by zero or more digits. -/
def StrictNumeric (s : List Char) : Prop :=
  s = ['0'] ∨ ∃ d ds, s = d :: ds ∧ d.isDigit = true ∧ d ≠ '0' ∧ ∀ c ∈ ds, c.isDigit = true

/-- A non-empty sequence of digits. -/
def LooseNumeric (s : List Char) : Prop := s ≠ [] ∧ ∀ c ∈ s, c.isDigit = true

/-- Zero or more digits, one letter or hyphen, then zero or more letters, digits
or hyphens. -/
def NonNumeric (s : List Char) : Prop :=
  ∃ ds c rest, s = ds ++ c :: rest ∧ (∀ d ∈ ds, d.isDigit = true) ∧
    (c.isAlpha = true ∨ c = '-') ∧ ∀ x ∈ rest, identChar x = true

/-- A non-empty run of letters, digits or hyphens. -/
def BuildIdentifier (s : List Char) : Prop := s ≠ [] ∧ ∀ c ∈ s, identChar c = true

/-- The strict full version in the words of the specification: an optional
single `v`; three strict numeric identifiers joined by dots; optionally a hyphen
and dot-joined pre-release identifiers, each a strict numeric or a non-numeric
identifier; optionally a plus sign and dot-joined build identifiers. -/
def StrictFull (s : List Char) : Prop :=
  ∃ v major minor patch pre build,
    s = v ++ (major ++ '.' :: (minor ++ '.' :: (patch ++ (pre ++ build)))) ∧
    (v = [] ∨ v = ['v']) ∧
    StrictNumeric major ∧ StrictNumeric minor ∧ StrictNumeric patch ∧
    (pre = [] ∨ ∃ p, pre = '-' :: p ∧ DotJoined (fun x => StrictNumeric x ∨ NonNumeric x) p) ∧
    (build = [] ∨ ∃ b, build = '+' :: b ∧ DotJoined BuildIdentifier b)

/-- The loose full version in the words of the specification: an optional run
of `v`, `=` and white space; three non-empty digit sequences joined by dots;
optionally an optional hyphen and dot-joined loose pre-release identifiers, each
a non-empty digit sequence or a non-numeric identifier; optionally a plus sign
and dot-joined build identifiers. -/
def LooseFull (s : List Char) : Prop :=
  ∃ lead major minor patch pre build,
    s = lead ++ (major ++ '.' :: (minor ++ '.' :: (patch ++ (pre ++ build)))) ∧
    (∀ c ∈ lead, c = 'v' ∨ c = '=' ∨ patternSpace c = true) ∧
    LooseNumeric major ∧ LooseNumeric minor ∧ LooseNumeric patch ∧
    (pre = [] ∨ ∃ hyphen p, pre = hyphen ++ p ∧ (hyphen = [] ∨ hyphen = ['-']) ∧
      DotJoined (fun x => LooseNumeric x ∨ NonNumeric x) p) ∧
    (build = [] ∨ ∃ b, build = '+' :: b ∧ DotJoined BuildIdentifier b)

/-- Value of a digit sequence read in base ten after the value `n` of the
digits to its left. -/
def decimalFrom (n : Nat) (s : List Char) : Nat :=
  s.foldl (fun n c => n * 10 + (c.toNat - '0'.toNat)) n

/-- The number a digit sequence denotes in base ten. -/
def decimalValue (s : List Char) : Nat := decimalFrom 0 s

end Spec

/-! ## The grammar and its text -/

/-- The syntax tree of the strict pattern prints back as the text under `"FULL"`
and reads unambiguously. -/
theorem FULL_text : regValues.get "FULL" = "^" ++ Grammar.FULLPLAIN.render ++ "$" ∧
    Grammar.FULLPLAIN.wellFormed = true := by decide

/-- The syntax tree of the loose pattern prints back as the text under
`"LOOSE"` and reads unambiguously. -/
theorem LOOSE_text : regValues.get "LOOSE" = "^" ++ Grammar.LOOSEPLAIN.render ++ "$" ∧
    Grammar.LOOSEPLAIN.wellFormed = true := by decide

/-- Matching with `FULL` is matching with the strict syntax tree. -/
theorem FULL_body : FULL.body = some Grammar.FULLPLAIN.compile := by decide

/-- Matching with `LOOSE` is matching with the loose syntax tree. -/
theorem LOOSE_body : LOOSE.body = some Grammar.LOOSEPLAIN.compile := by decide

/-- The map of compiled patterns holds `FULL` under its key. -/
theorem lookup_FULL : getRegexes.lookup "FULL" = some FULL := by decide

/-- The map of compiled patterns holds `LOOSE` under its key. -/
theorem lookup_LOOSE : getRegexes.lookup "LOOSE" = some LOOSE := by decide

/-- The pattern `newSemVer` extracts with: `LOOSE` for every non-empty mode. -/
theorem newSemVerRegex_eq (loose : String) :
    newSemVerRegex getRegexes loose = some (if len loose > 0 then LOOSE else FULL) := by
  unfold newSemVerRegex
  split <;> simp [lookup_FULL, lookup_LOOSE]

/-! ## Lengths -/

/-- Every character takes at least one byte. -/
theorem length_le_go (cs : List Char) : cs.length ≤ String.utf8ByteSize.go cs := by
  induction cs with
  | nil => simp [String.utf8ByteSize.go]
  | cons c cs ih =>
    have := Char.utf8Size_pos c
    simp only [String.utf8ByteSize.go, List.length_cons]
    omega

/-- The number of characters of a string is at most its number of bytes. -/
theorem length_le_len (s : String) : s.length ≤ len s := by
  cases s with
  | mk cs => exact length_le_go cs

/-! ## Outcomes of `newSemVer` and `parse` -/

/-- An input of more than `MAXLENGTH` bytes gets the length error. -/
theorem parse_of_long (version loose : String) (h : MAXLENGTH < len version) :
    parse version loose = .ret (none, some lengthError) := by
  simp [parse, h, pure]

/-- The extraction of `newSemVer` yields at most one string, so the index
expressions `matched[0]` or `matched[1]` panic. -/
theorem newSemVer_panics (version loose : String) :
    newSemVer version loose =
      if (if len loose > 0 then LOOSE else FULL).MatchString (TrimSpace version) then
        .panic (.indexOutOfRange 1 1)
      else .panic (.indexOutOfRange 0 0) := by
  unfold newSemVer
  simp only [newSemVerRegex_eq]
  by_cases hm : (if len loose > 0 then LOOSE else FULL).MatchString (TrimSpace version) = true
  · simp [hm, Regexp.FindAllString, index, bind, Outcome.bind]
  · simp [hm, Regexp.FindAllString, index, bind, Outcome.bind]

/-- An input of at most `MAXLENGTH` bytes reaches `newSemVer` and panics there. -/
theorem parse_of_short (version loose : String) (h : len version ≤ MAXLENGTH) :
    parse version loose =
      if (if len loose > 0 then LOOSE else FULL).MatchString (TrimSpace version) then
        .panic (.indexOutOfRange 1 1)
      else .panic (.indexOutOfRange 0 0) := by
  have h' : ¬ (len version > MAXLENGTH) := by omega
  by_cases hm : (if len loose > 0 then LOOSE else FULL).MatchString (TrimSpace version) = true
  · simp [parse, h', testValid, newSemVer_panics, hm, bind, Outcome.bind]
  · simp [parse, h', testValid, newSemVer_panics, hm, bind, Outcome.bind]

/-- The function `parse` returns a version on no input: it returns the length
error or panics at an index expression of `newSemVer`. -/
theorem parse_never_ok (version loose : String) :
    parse version loose = .ret (none, some lengthError) ∨
      ∃ k, parse version loose = .panic (.indexOutOfRange k k) := by
  by_cases h : MAXLENGTH < len version
  · exact Or.inl (parse_of_long version loose h)
  · right
    have hs := parse_of_short version loose (by omega)
    by_cases hm : (if len loose > 0 then LOOSE else FULL).MatchString (TrimSpace version) = true
    · exact ⟨1, by rw [hs, if_pos hm]⟩
    · exact ⟨0, by rw [hs, if_neg hm]⟩

/-- The function `valid` returns on no input. -/
theorem valid_panics (version loose : String) : ∃ v, valid version loose = .panic v := by
  rcases parse_never_ok version loose with h | ⟨k, h⟩
  · exact ⟨.error lengthError, by simp [valid, h, bind, Outcome.bind, panicIfError]⟩
  · exact ⟨.indexOutOfRange k k, by simp [valid, h, bind, Outcome.bind]⟩

/-! ## White space and normalisation -/

/-- Leading white space is dropped as by `List.dropWhile`. -/
theorem trimLeft_eq_dropWhile (cs : List Char) : trimLeft cs = cs.dropWhile isSpace := by
  induction cs with
  | nil => rfl
  | cons c cs ih =>
    by_cases h : isSpace c = true
    · simp [trimLeft, List.dropWhile, h, ih]
    · simp [trimLeft, List.dropWhile, h]

/-- Trailing white space is dropped as by `List.rdropWhile`. -/
theorem trimRight_eq_rdropWhile (cs : List Char) : trimRight cs = cs.rdropWhile isSpace := by
  simp [trimRight, List.rdropWhile, trimLeft_eq_dropWhile]

/-- A trimmed list has no leading white space left. -/
theorem dropWhile_rdropWhile_dropWhile (cs : List Char) :
    ((cs.dropWhile isSpace).rdropWhile isSpace).dropWhile isSpace =
      (cs.dropWhile isSpace).rdropWhile isSpace := by
  rw [List.dropWhile_eq_self_iff]
  intro hl
  have hpre : (cs.dropWhile isSpace).rdropWhile isSpace <+: cs.dropWhile isSpace :=
    List.rdropWhile_prefix isSpace _
  have hlen : 0 < (cs.dropWhile isSpace).length := lt_of_lt_of_le hl hpre.length_le
  have hhead := (List.dropWhile_eq_self_iff (p := isSpace) (l := cs.dropWhile isSpace)).1
    (List.dropWhile_idempotent isSpace cs) hlen
  have hget := hpre.getElem hl
  simp only [List.get_eq_getElem] at hhead ⊢
  rw [hget]
  exact hhead

/-- Trimming twice is trimming once. -/
theorem TrimSpace_idem (s : String) : TrimSpace (TrimSpace s) = TrimSpace s := by
  simp only [TrimSpace, trimLeft_eq_dropWhile, trimRight_eq_rdropWhile,
    dropWhile_rdropWhile_dropWhile, List.rdropWhile_idempotent]

/-- A first occurrence found from position `i` on lies at `i` or later. -/
theorem indexFrom_ge (sub cs : List Char) (i j : Nat) (h : indexFrom sub cs i = some j) :
    i ≤ j := by
  induction cs generalizing i with
  | nil =>
    simp only [indexFrom] at h
    split at h <;> simp_all
  | cons c cs ih =>
    simp only [indexFrom] at h
    split at h
    · simp_all
    · exact Nat.le_of_succ_le (ih (i + 1) h)

/-- The test and replacement made by `clean` remove exactly one leading `v`. -/
theorem strip_v_eq (t : String) :
    (if Index t "v" = 0 then Replace1 t "v" "" else t) =
      match t.data with
      | 'v' :: rest => ⟨rest⟩
      | _ => t := by
  cases t with
  | mk cs =>
    cases cs with
    | nil => simp [Index, indexFrom]
    | cons c cs =>
      by_cases hc : c = 'v'
      · subst hc
        simp [Index, indexFrom, Replace1, replaceFirst, List.isPrefixOf]
      · have hidx : Index ⟨c :: cs⟩ "v" ≠ 0 := by
          simp only [Index, indexFrom]
          have hp : List.isPrefixOf "v".data (c :: cs) = false := by
            simp [List.isPrefixOf, hc, Ne.symm hc]
          simp only [hp]
          cases hi : indexFrom "v".data cs (0 + 1) with
          | none => simp
          | some j =>
            have := indexFrom_ge _ _ _ _ hi
            simp only [Bool.false_eq_true, if_false]
            omega
        simp only [hidx, if_false]
        split
        · rename_i h
          simp_all
        · rfl

/-- The function `clean` is `valid` applied to the normalised input. -/
theorem clean_eq_valid (version loose : String) :
    clean version loose = valid (normalised version) loose := by
  unfold clean valid normalised
  simp only [strip_v_eq]

/-- Extraction trims its input: `newSemVer` gives the same outcome on an input and
on its trimmed form. -/
theorem newSemVer_trim (version loose : String) :
    newSemVer version loose = newSemVer (TrimSpace version) loose := by
  simp only [newSemVer, TrimSpace_idem]

/-! ## The length limit -/

/-- C1: for every string of more than 256 characters and for every mode value,
`parse` returns the length-limit error and no version value; the result depends
neither on the content of the string nor on the mode. -/
theorem parse_length_limit (version loose : String) (h : 256 < version.length) :
    parse version loose = .ret (none, some lengthError) :=
  parse_of_long version loose (lt_of_lt_of_le h (length_le_len version))

/-- C1 at a string of 257 characters in strict mode. -/
theorem parse_length_limit_witness :
    256 < (repeatChar 257 'x').length ∧
      parse (repeatChar 257 'x') "strict" = .ret (none, some lengthError) :=
  ⟨by decide, parse_length_limit (repeatChar 257 'x') "strict" (by decide)⟩

/-! ## Valid and malformed inputs -/

/-- C2: each of the four valid strict inputs matches `FULL`, and on each of them
`parse` in mode `"strict"` panics at the index expression `matched[1]` instead of
returning a version, and so does `valid`. -/
theorem strict_inputs_panic :
    (FULL.MatchString "1.2.3" = true ∧
      parse "1.2.3" "strict" = .panic (.indexOutOfRange 1 1) ∧
      valid "1.2.3" "strict" = .panic (.indexOutOfRange 1 1)) ∧
    (FULL.MatchString "1.2.3-alpha.1" = true ∧
      parse "1.2.3-alpha.1" "strict" = .panic (.indexOutOfRange 1 1) ∧
      valid "1.2.3-alpha.1" "strict" = .panic (.indexOutOfRange 1 1)) ∧
    (FULL.MatchString "1.2.3+build.5" = true ∧
      parse "1.2.3+build.5" "strict" = .panic (.indexOutOfRange 1 1) ∧
      valid "1.2.3+build.5" "strict" = .panic (.indexOutOfRange 1 1)) ∧
    (FULL.MatchString "1.2.3-alpha.1+build.5" = true ∧
      parse "1.2.3-alpha.1+build.5" "strict" = .panic (.indexOutOfRange 1 1) ∧
      valid "1.2.3-alpha.1+build.5" "strict" = .panic (.indexOutOfRange 1 1)) := by
  decide

/-- C3: `testValid` accepts `"abc"` although neither pattern matches it, `parse`
returns the invalid-format error on no input, and on each of the four malformed
inputs `parse` panics at the index expression `matched[0]` in both modes. -/
theorem malformed_inputs_panic :
    (testValid "abc" (parseTester getRegexes "strict") = true ∧
      FULL.MatchString "abc" = false ∧ LOOSE.MatchString "abc" = false) ∧
    (∀ version loose : String, parse version loose ≠ .ret (none, some formatError)) ∧
    (parse "" "strict" = .panic (.indexOutOfRange 0 0) ∧
      parse "" "loose" = .panic (.indexOutOfRange 0 0)) ∧
    (parse "abc" "strict" = .panic (.indexOutOfRange 0 0) ∧
      parse "abc" "loose" = .panic (.indexOutOfRange 0 0)) ∧
    (parse "1.2" "strict" = .panic (.indexOutOfRange 0 0) ∧
      parse "1.2" "loose" = .panic (.indexOutOfRange 0 0)) ∧
    (parse "1.2.3.4" "strict" = .panic (.indexOutOfRange 0 0) ∧
      parse "1.2.3.4" "loose" = .panic (.indexOutOfRange 0 0)) := by
  refine ⟨by decide, ?_, by decide, by decide, by decide, by decide⟩
  intro version loose h
  rcases parse_never_ok version loose with h1 | ⟨k, h1⟩
  · rw [h1] at h
    revert h
    decide
  · rw [h1] at h
    cases h

/-- C4: the strict pattern `FULL` matches `"v1.2.3"` and none of `"=1.2.3"`,
`"1.2.3alpha1"`, `"01.2.3"`, the loose pattern `LOOSE` matches all four, and on
each of the four inputs `parse` panics at `matched[1]`, in loose mode as in
strict mode, instead of returning a version in loose mode. -/
theorem loose_only_inputs_panic :
    (FULL.MatchString "v1.2.3" = true ∧ FULL.MatchString "=1.2.3" = false ∧
      FULL.MatchString "1.2.3alpha1" = false ∧ FULL.MatchString "01.2.3" = false) ∧
    (LOOSE.MatchString "v1.2.3" = true ∧ LOOSE.MatchString "=1.2.3" = true ∧
      LOOSE.MatchString "1.2.3alpha1" = true ∧ LOOSE.MatchString "01.2.3" = true) ∧
    (parse "v1.2.3" "loose" = .panic (.indexOutOfRange 1 1) ∧
      parse "=1.2.3" "loose" = .panic (.indexOutOfRange 1 1) ∧
      parse "1.2.3alpha1" "loose" = .panic (.indexOutOfRange 1 1) ∧
      parse "01.2.3" "loose" = .panic (.indexOutOfRange 1 1)) ∧
    (parse "v1.2.3" "strict" = .panic (.indexOutOfRange 1 1) ∧
      parse "=1.2.3" "strict" = .panic (.indexOutOfRange 1 1) ∧
      parse "1.2.3alpha1" "strict" = .panic (.indexOutOfRange 1 1) ∧
      parse "01.2.3" "strict" = .panic (.indexOutOfRange 1 1)) :=
  ⟨by decide, by decide, by decide, by decide⟩

/-- C5: a valid strict version string of exactly 256 characters passes the length
check, and `parse` then panics at `matched[1]` instead of returning a version. -/
theorem boundary_input_panics :
    ("1.2.3+" ++ repeatChar 250 'a').length = 256 ∧
    len ("1.2.3+" ++ repeatChar 250 'a') = 256 ∧
    FULL.MatchString ("1.2.3+" ++ repeatChar 250 'a') = true ∧
    parse ("1.2.3+" ++ repeatChar 250 'a') "strict" = .panic (.indexOutOfRange 1 1) ∧
    parse ("1.2.3+" ++ repeatChar 250 'a') "" = .panic (.indexOutOfRange 1 1) := by
  decide

/-! ## The wrappers `valid` and `clean` -/

/-- C8: for every input and mode, `clean` has the outcome of `valid` on the input
with its surrounding white space removed and then exactly one leading `v`
removed when there is one; a second `v` and a `v` further right stay. -/
theorem clean_is_valid_of_normalised (x mode : String) :
    clean x mode = valid (normalised x) mode ∧
      normalised "vv1.2.3" = "v1.2.3" ∧ normalised " v1.2.3 " = "1.2.3" ∧
      normalised " 1v2 " = "1v2" :=
  ⟨clean_eq_valid x mode, by decide, by decide, by decide⟩

/-- C9, as stated, fails at a string of 257 characters: `parse` returns the
length-limit error and both `valid` and `clean` panic with it. -/
theorem wrappers_panic_on_long_input :
    parse (repeatChar 257 'x') "strict" = .ret (none, some lengthError) ∧
    valid (repeatChar 257 'x') "strict" = .panic (.error lengthError) ∧
    clean (repeatChar 257 'x') "strict" = .panic (.error lengthError) := by
  decide

/-- C9, amended: whenever `parse` returns an error, `valid` panics with that error
as the panic value, and `clean` does so whenever `parse` returns an error on the
normalised input. -/
theorem wrappers_panic_on_rejection (version loose : String) (semver : Option SemVer)
    (err : GoError) :
    (parse version loose = .ret (semver, some err) →
      valid version loose = .panic (.error err)) ∧
    (parse (normalised version) loose = .ret (semver, some err) →
      clean version loose = .panic (.error err)) := by
  constructor
  · intro h
    simp [valid, h, bind, Outcome.bind, panicIfError]
  · intro h
    rw [clean_eq_valid]
    simp [valid, h, bind, Outcome.bind, panicIfError]

/-- C9, amended, at a string of 257 characters. -/
theorem wrappers_panic_on_rejection_witness :
    parse (repeatChar 257 'x') "strict" = .ret (none, some lengthError) ∧
    parse (normalised (repeatChar 257 'x')) "strict" = .ret (none, some lengthError) ∧
    valid (repeatChar 257 'x') "strict" = .panic (.error lengthError) ∧
    clean (repeatChar 257 'x') "strict" = .panic (.error lengthError) :=
  ⟨by decide, by decide,
    (wrappers_panic_on_rejection (repeatChar 257 'x') "strict" none lengthError).1 (by decide),
    (wrappers_panic_on_rejection (repeatChar 257 'x') "strict" none lengthError).2 (by decide)⟩

/-! ## White space and the length check -/

/-- C10, as stated, fails at 252 spaces followed by `"1.2.3"`: the trimmed form
has 5 characters, yet `parse` rejects the input with the length-limit error and
its outcome differs from that of `parse` on the trimmed form. -/
theorem length_check_before_trim :
    256 < (repeatChar 252 ' ' ++ "1.2.3").length ∧
    TrimSpace (repeatChar 252 ' ' ++ "1.2.3") = "1.2.3" ∧
    parse (repeatChar 252 ' ' ++ "1.2.3") "strict" = .ret (none, some lengthError) ∧
    parse (repeatChar 252 ' ' ++ "1.2.3") "strict" ≠
      parse (TrimSpace (repeatChar 252 ' ' ++ "1.2.3")) "strict" := by
  decide

/-- C10, amended: white space is trimmed inside `newSemVer`, after the length
check.  `newSemVer` has the same outcome on an input and on its trimmed form,
and `parse` rejects every input of more than 256 bytes with the length-limit
error, whatever the length of its trimmed form. -/
theorem trim_after_length_check (x mode : String) :
    newSemVer x mode = newSemVer (TrimSpace x) mode ∧
    (256 < len x → parse x mode = .ret (none, some lengthError)) :=
  ⟨newSemVer_trim x mode, parse_of_long x mode⟩

/-- C10, amended, at 252 spaces followed by `"1.2.3"`. -/
theorem trim_after_length_check_witness :
    256 < len (repeatChar 252 ' ' ++ "1.2.3") ∧
    len (TrimSpace (repeatChar 252 ' ' ++ "1.2.3")) ≤ 256 ∧
    parse (repeatChar 252 ' ' ++ "1.2.3") "strict" = .ret (none, some lengthError) :=
  ⟨by decide, by decide,
    (trim_after_length_check (repeatChar 252 ' ' ++ "1.2.3") "strict").2 (by decide)⟩

/-! ## Semantics of the patterns -/

namespace Regex

/-- The test `nullable` decides membership of the empty string. -/
theorem nullable_iff (r : Regex) : nullable r = true ↔ Lang r [] := by
  induction r with
  | nothing => simp [nullable, Lang]
  | eps => simp [nullable, Lang]
  | cls rs => simp [nullable, Lang]
  | alt a b iha ihb => simp [nullable, Lang, iha, ihb]
  | seq a b iha ihb =>
    simp only [nullable, Lang, Bool.and_eq_true, iha, ihb]
    constructor
    · rintro ⟨ha, hb⟩
      exact ⟨[], [], rfl, ha, hb⟩
    · rintro ⟨s1, s2, h, ha, hb⟩
      have h' := h.symm
      rw [List.append_eq_nil] at h'
      obtain ⟨rfl, rfl⟩ := h'
      exact ⟨ha, hb⟩
  | star a _ =>
    simp only [nullable, Lang, true_iff]
    exact ⟨[], rfl, by simp⟩

/-- The simplifying concatenation denotes the concatenation. -/
theorem mkSeq_iff (a b : Regex) (s : List Char) : Lang (mkSeq a b) s ↔ Lang (seq a b) s := by
  cases a with
  | eps =>
    simp only [mkSeq, Lang]
    constructor
    · intro h
      exact ⟨[], s, rfl, rfl, h⟩
    · rintro ⟨s1, s2, rfl, rfl, h⟩
      exact h
  | _ => simp [mkSeq, Lang]

/-- The simplifying alternation denotes the alternation. -/
theorem mkAlt_iff (a b : Regex) (s : List Char) : Lang (mkAlt a b) s ↔ Lang (alt a b) s := by
  cases a <;> cases b <;> simp [mkAlt, Lang]

/-- A non-empty string of a repetition splits into a non-empty first round and
a rest. -/
theorem star_cons_iff (a : Regex) (c : Char) (s : List Char) :
    Lang (star a) (c :: s) ↔
      ∃ s1 s2, s = s1 ++ s2 ∧ Lang a (c :: s1) ∧ Lang (star a) s2 := by
  constructor
  · rintro ⟨L, hL, hall⟩
    induction L with
    | nil => simp at hL
    | cons x L ih =>
      cases x with
      | nil =>
        apply ih
        · simpa using hL
        · intro y hy
          exact hall y (List.mem_cons_of_mem _ hy)
      | cons d x =>
        simp only [List.flatten_cons, List.cons_append, List.cons.injEq] at hL
        obtain ⟨rfl, rfl⟩ := hL
        exact ⟨x, L.flatten, rfl, hall _ (List.mem_cons_self _ _),
          L, rfl, fun y hy => hall y (List.mem_cons_of_mem _ hy)⟩
  · rintro ⟨s1, s2, rfl, h1, L, rfl, hall⟩
    refine ⟨(c :: s1) :: L, by simp, ?_⟩
    intro y hy
    rcases List.mem_cons.1 hy with rfl | hy
    · exact h1
    · exact hall y hy

/-- The derivative denotes the left quotient by the character. -/
theorem deriv_iff (r : Regex) (c : Char) (s : List Char) :
    Lang (deriv r c) s ↔ Lang r (c :: s) := by
  induction r generalizing s with
  | nothing => simp [deriv, Lang]
  | eps => simp [deriv, Lang]
  | cls rs =>
    by_cases h : inClass rs c = true
    · simp only [deriv, h, if_true, Lang]
      constructor
      · rintro rfl
        exact ⟨c, rfl, h⟩
      · rintro ⟨d, hd, _⟩
        simp only [List.cons.injEq] at hd
        exact hd.2
    · simp only [deriv, h, Lang]
      simp only [Bool.false_eq_true, if_false, Lang, false_iff]
      rintro ⟨d, hd, hin⟩
      simp only [List.cons.injEq] at hd
      rw [← hd.1] at hin
      exact h hin
  | alt a b iha ihb => simp [deriv, mkAlt_iff, Lang, iha, ihb]
  | seq a b iha ihb =>
    have key : Lang (seq a b) (c :: s) ↔
        (∃ s1 s2, s = s1 ++ s2 ∧ Lang a (c :: s1) ∧ Lang b s2) ∨ (Lang a [] ∧ Lang b (c :: s)) := by
      constructor
      · rintro ⟨s1, s2, h, ha, hb⟩
        cases s1 with
        | nil =>
          simp only [List.nil_append] at h
          subst h
          exact Or.inr ⟨ha, hb⟩
        | cons d s1 =>
          simp only [List.cons_append, List.cons.injEq] at h
          obtain ⟨rfl, rfl⟩ := h
          exact Or.inl ⟨s1, s2, rfl, ha, hb⟩
      · rintro (⟨s1, s2, rfl, ha, hb⟩ | ⟨ha, hb⟩)
        · exact ⟨c :: s1, s2, rfl, ha, hb⟩
        · exact ⟨[], c :: s, rfl, ha, hb⟩
    rw [key]
    by_cases hn : nullable a = true
    · simp only [deriv, hn, if_true, mkAlt_iff, mkSeq_iff, Lang, iha, ihb]
      rw [nullable_iff] at hn
      simp [hn]
    · have hd : deriv (seq a b) c = mkSeq (deriv a c) b := by simp [deriv, hn]
      rw [hd, mkSeq_iff]
      rw [nullable_iff] at hn
      simp [Lang, hn, iha]
  | star a iha =>
    rw [star_cons_iff]
    simp only [deriv, mkSeq_iff]
    constructor
    · rintro ⟨s1, s2, h, h1, h2⟩
      exact ⟨s1, s2, h, (iha s1).1 h1, h2⟩
    · rintro ⟨s1, s2, h, h1, h2⟩
      exact ⟨s1, s2, h, (iha s1).2 h1, h2⟩

/-- The derivative matcher decides the denotation. -/
theorem matchesList_iff (r : Regex) (s : List Char) : matchesList r s = true ↔ Lang r s := by
  induction s generalizing r with
  | nil => simp [matchesList, nullable_iff]
  | cons c s ih => simp [matchesList, ih, deriv_iff]

end Regex

/-- The digits are the characters with codes 48 to 57. -/
theorem isDigit_iff (c : Char) : c.isDigit = true ↔ 48 ≤ c.toNat ∧ c.toNat ≤ 57 := by
  simp [Char.isDigit, Char.toNat, UInt32.le_def, UInt32.toNat, BitVec.le_def]

/-- The class `[0-9]` is the test `Char.isDigit`. -/
theorem inClass_digit (c : Char) : Regex.inClass [('0', '9')] c = c.isDigit := by
  rw [Bool.eq_iff_iff, isDigit_iff]
  simp [Regex.inClass]

/-- Characters with the same code are equal. -/
theorem toNat_inj' (c d : Char) (h : c.toNat = d.toNat) : c = d := by
  apply Char.ext
  apply UInt32.toNat.inj
  exact h

/-- A one-character class holds that character only. -/
theorem inClass_single (c d : Char) : Regex.inClass [(c, c)] d = true ↔ d = c := by
  simp only [Regex.inClass, List.any_cons, List.any_nil, Bool.or_false, Bool.and_eq_true,
    decide_eq_true_eq]
  constructor
  · rintro ⟨h1, h2⟩
    exact toNat_inj' _ _ (le_antisymm h2 h1)
  · rintro rfl
    exact ⟨le_refl _, le_refl _⟩

/-- Only the empty string has no bytes. -/
theorem len_eq_zero_iff (s : String) : len s = 0 ↔ s = "" := by
  constructor
  · intro h
    have hl := length_le_len s
    rw [h] at hl
    cases s with
    | mk cs =>
      cases cs with
      | nil => rfl
      | cons c cs => simp [String.length] at hl
  · rintro rfl
    rfl

/-- The extraction yields at most one string. -/
theorem FindAllString_length_le (re : Regexp) (s : String) : (re.FindAllString s).length ≤ 1 := by
  unfold Regexp.FindAllString
  split <;> simp

/-! ## Rendering -/

/-- C11: two versions with the same major, minor and patch render to the same
string, whatever their raw text, pre-release, build metadata and mode are, and
that string is the three numbers in decimal joined by dots. -/
theorem version_of_numbers_only (s t : SemVer) (hmajor : s.major = t.major)
    (hminor : s.minor = t.minor) (hpatch : s.patch = t.patch) :
    s.version = t.version ∧
      s.version = formatInt s.major ++ "." ++ formatInt s.minor ++ "." ++ formatInt s.patch := by
  simp [SemVer.version, hmajor, hminor, hpatch]

/-- C11 at two versions that differ in every field but the three numbers. -/
theorem version_of_numbers_only_witness :
    (⟨"1.2.3+build.5", 1, 2, 3, "", "build.5", "strict"⟩ : SemVer).version =
      (⟨" v1.2.3-rc.1", 1, 2, 3, "rc.1", "", "loose"⟩ : SemVer).version ∧
    (⟨"1.2.3+build.5", 1, 2, 3, "", "build.5", "strict"⟩ : SemVer).version = "1.2.3" :=
  ⟨(version_of_numbers_only ⟨"1.2.3+build.5", 1, 2, 3, "", "build.5", "strict"⟩
      ⟨" v1.2.3-rc.1", 1, 2, 3, "rc.1", "", "loose"⟩ rfl rfl rfl).1, by decide⟩

/-! ## The pattern of a call -/

/-- C12: in mode `"strict"` the function `parse` selects `FULL` for validation
and `newSemVer` selects `LOOSE` for extraction, two different patterns: on
`"01.2.3"`, which only `LOOSE` matches, the extraction finds a match.  The two
selections agree exactly for the modes `"loose"` and `""`. -/
theorem strict_mode_mixes_patterns :
    parseTester getRegexes "strict" = some FULL ∧
    newSemVerRegex getRegexes "strict" = some LOOSE ∧
    FULL ≠ LOOSE ∧
    (FULL.MatchString "01.2.3" = false ∧ LOOSE.MatchString "01.2.3" = true ∧
      newSemVer "01.2.3" "strict" = .panic (.indexOutOfRange 1 1) ∧
      newSemVer "01.2.3" "" = .panic (.indexOutOfRange 0 0)) ∧
    (∀ mode : String, parseTester getRegexes mode = newSemVerRegex getRegexes mode ↔
      (mode = "loose" ∨ mode = "")) := by
  refine ⟨by decide, by decide, by decide, by decide, ?_⟩
  intro mode
  have hne : FULL ≠ LOOSE := by decide
  simp only [parseTester, newSemVerRegex, lookup_FULL, lookup_LOOSE]
  by_cases h1 : mode = "loose"
  · subst h1
    simp
    decide
  · by_cases h2 : mode = ""
    · subst h2
      simp
      decide
    · have hlen : len mode > 0 := by
        have h0 : len mode ≠ 0 := fun h0 => h2 ((len_eq_zero_iff mode).1 h0)
        omega
      simp [h1, h2, hlen, hne]

/-- C13: on `"1.2.3"`, which both patterns match, the extraction yields the one
string `"1.2.3"`, so `matched[1]` is out of range and `newSemVer` panics; on
every input the extraction yields at most one string, never three. -/
theorem extraction_yields_one_string :
    (FULL.MatchString "1.2.3" = true ∧ FULL.FindAllString "1.2.3" = ["1.2.3"] ∧
      LOOSE.FindAllString "1.2.3" = ["1.2.3"]) ∧
    (index (FULL.FindAllString "1.2.3") 1 = .panic (.indexOutOfRange 1 1) ∧
      newSemVer "1.2.3" "" = .panic (.indexOutOfRange 1 1) ∧
      newSemVer "1.2.3" "loose" = .panic (.indexOutOfRange 1 1)) ∧
    (∀ (re : Regexp) (s : String), (re.FindAllString s).length ≤ 1) :=
  ⟨by decide, by decide, FindAllString_length_le⟩

/-- C18: `parse` returns the length-limit error exactly when the input has more
than 256 bytes; otherwise the extraction of `newSemVer` yields the whole trimmed
input or nothing and `parse` panics at `matched[1]` or at `matched[0]`; it
returns a version on no input. -/
theorem parse_returns_no_version (version loose : String) :
    (parse version loose = .ret (none, some lengthError) ↔ 256 < len version) ∧
    (parse version loose = .ret (none, some lengthError) ∨
      (∃ re, newSemVerRegex getRegexes loose = some re ∧
        re.FindAllString (TrimSpace version) = [TrimSpace version] ∧
        parse version loose = .panic (.indexOutOfRange 1 1)) ∨
      (∃ re, newSemVerRegex getRegexes loose = some re ∧
        re.FindAllString (TrimSpace version) = [] ∧
        parse version loose = .panic (.indexOutOfRange 0 0))) ∧
    (∀ (semver : SemVer) (err : Option GoError),
      parse version loose ≠ .ret (some semver, err)) := by
  by_cases h : MAXLENGTH < len version
  · have hp := parse_of_long version loose h
    refine ⟨⟨fun _ => h, fun _ => hp⟩, Or.inl hp, ?_⟩
    intro semver err he
    rw [hp] at he
    cases he
  · have hs := parse_of_short version loose (by omega)
    by_cases hm : (if len loose > 0 then LOOSE else FULL).MatchString (TrimSpace version) = true
    · rw [if_pos hm] at hs
      refine ⟨⟨fun he => ?_, fun hl => absurd hl h⟩, Or.inr (Or.inl ?_), ?_⟩
      · rw [hs] at he
        cases he
      · exact ⟨_, newSemVerRegex_eq loose, by simp [Regexp.FindAllString, hm], hs⟩
      · intro semver err he
        rw [hs] at he
        cases he
    · rw [if_neg hm] at hs
      refine ⟨⟨fun he => ?_, fun hl => absurd hl h⟩, Or.inr (Or.inr ?_), ?_⟩
      · rw [hs] at he
        cases he
      · exact ⟨_, newSemVerRegex_eq loose, by simp [Regexp.FindAllString, hm], hs⟩
      · intro semver err he
        rw [hs] at he
        cases he

/-! ## The build order of the grammar -/

/-- The statements, run from the empty map, end in the map `regValues`. -/
theorem statements_build_regValues : (stateBefore statements.length).regValues = regValues := by
  decide

/-- C17: in `getRegexes` every key a statement reads from `regValues` has been
assigned a non-empty text before that statement runs and is not the key the
statement assigns, the local variables are declared non-empty before they are
read, and the returned map holds a compiled pattern, compiled from the final
non-empty text, under every assigned key and under no other key; `FULL` and
`LOOSE` are among them. -/
theorem fragments_built_in_order :
    (∀ i : Fin statements.length, ∀ key ∈ (statements.get i).reads,
      ((stateBefore i).regValues.lookup key).isSome = true ∧
      (stateBefore i).regValues.get key ≠ "" ∧
      (statements.get i).target ≠ some key) ∧
    (∀ i : Fin statements.length, ∀ name ∈ (statements.get i).readsLocal,
      ((stateBefore i).locals.lookup name).isSome = true ∧
      (stateBefore i).locals.get name ≠ "") ∧
    (stateBefore statements.length).regValues = regValues ∧
    (∀ key ∈ assignedKeys,
      getRegexes.lookup key = some (Compile (regValues.get key)) ∧ regValues.get key ≠ "") ∧
    (∀ kv ∈ getRegexes, kv.1 ∈ assignedKeys) ∧
    ("FULL" ∈ assignedKeys ∧ "LOOSE" ∈ assignedKeys ∧
      getRegexes.lookup "FULL" = some FULL ∧ getRegexes.lookup "LOOSE" = some LOOSE) := by
  decide

/-! ## What the two patterns denote -/

/-- The letters are the characters with codes 65 to 90 and 97 to 122. -/
theorem isAlpha_iff (c : Char) :
    c.isAlpha = true ↔ (65 ≤ c.toNat ∧ c.toNat ≤ 90) ∨ (97 ≤ c.toNat ∧ c.toNat ≤ 122) := by
  simp [Char.isAlpha, Char.isUpper, Char.isLower, Char.toNat, UInt32.le_def, UInt32.toNat,
    BitVec.le_def]

/-- A character is determined by its code. -/
theorem eq_iff_toNat (c d : Char) : c = d ↔ c.toNat = d.toNat :=
  ⟨fun h => by rw [h], toNat_inj' c d⟩

/-- The class `[1-9]` holds the digits other than `0`. -/
theorem inClass_nonzero (c : Char) :
    Regex.inClass [('1', '9')] c = true ↔ c.isDigit = true ∧ c ≠ '0' := by
  rw [isDigit_iff, Ne, eq_iff_toNat]
  simp [Regex.inClass]
  omega

/-- The class `[a-zA-Z-]` holds the letters and the hyphen. -/
theorem inClass_head (c : Char) :
    Regex.inClass [('a', 'z'), ('A', 'Z'), ('-', '-')] c = true ↔ c.isAlpha = true ∨ c = '-' := by
  rw [isAlpha_iff, eq_iff_toNat]
  simp [Regex.inClass]
  omega

/-- The class `[a-zA-Z0-9-]` holds the letters, the digits and the hyphen. -/
theorem inClass_ident (c : Char) :
    Regex.inClass [('a', 'z'), ('A', 'Z'), ('0', '9'), ('-', '-')] c = Spec.identChar c := by
  rw [Bool.eq_iff_iff]
  simp only [Spec.identChar, Bool.or_eq_true, beq_iff_eq, isAlpha_iff, isDigit_iff, eq_iff_toNat]
  simp [Regex.inClass]
  omega

/-- The class `[0-9A-Za-z-]` holds the letters, the digits and the hyphen. -/
theorem inClass_build (c : Char) :
    Regex.inClass [('0', '9'), ('A', 'Z'), ('a', 'z'), ('-', '-')] c = Spec.identChar c := by
  rw [Bool.eq_iff_iff]
  simp only [Spec.identChar, Bool.or_eq_true, beq_iff_eq, isAlpha_iff, isDigit_iff, eq_iff_toNat]
  simp [Regex.inClass]
  omega

/-- The class `[v=\s]` holds `v`, `=` and the white space of the pattern syntax. -/
theorem inClass_lead (c : Char) :
    Regex.inClass [('v', 'v'), ('=', '='), (Char.ofNat 9, Char.ofNat 10),
      (Char.ofNat 12, Char.ofNat 13), (' ', ' ')] c = true ↔
      c = 'v' ∨ c = '=' ∨ Spec.patternSpace c = true := by
  simp only [Spec.patternSpace, Bool.or_eq_true, beq_iff_eq, eq_iff_toNat]
  simp [Regex.inClass]
  omega


namespace Regex

/-- A concatenation denotes the concatenations of its parts. -/
theorem Lang_seq (a b : Regex) (s : List Char) :
    Lang (seq a b) s ↔ ∃ s1 s2, s = s1 ++ s2 ∧ Lang a s1 ∧ Lang b s2 := Iff.rfl

/-- An alternation denotes the union of its parts. -/
theorem Lang_alt (a b : Regex) (s : List Char) : Lang (alt a b) s ↔ Lang a s ∨ Lang b s :=
  Iff.rfl

/-- A class denotes its one-character strings. -/
theorem Lang_cls (rs : List (Char × Char)) (s : List Char) :
    Lang (cls rs) s ↔ ∃ c, s = [c] ∧ inClass rs c = true := Iff.rfl

/-- A literal character denotes the string of that character. -/
theorem Lang_chr (c : Char) (s : List Char) : Lang (chr c) s ↔ s = [c] := by
  simp only [chr, Lang, inClass_single]
  constructor
  · rintro ⟨d, rfl, rfl⟩
    rfl
  · rintro rfl
    exact ⟨c, rfl, rfl⟩

/-- An optional pattern denotes the empty string and the strings of the pattern. -/
theorem Lang_opt (a : Regex) (s : List Char) : Lang (opt a) s ↔ s = [] ∨ Lang a s := by
  simp only [opt, Lang]
  exact or_comm

/-- A repeated class denotes the strings over the class. -/
theorem Lang_star_cls (rs : List (Char × Char)) (s : List Char) :
    Lang (star (cls rs)) s ↔ ∀ c ∈ s, inClass rs c = true := by
  constructor
  · rintro ⟨L, rfl, hall⟩ c hc
    rw [List.mem_flatten] at hc
    obtain ⟨x, hx, hcx⟩ := hc
    obtain ⟨d, rfl, hd⟩ := hall x hx
    rw [List.mem_singleton] at hcx
    rw [hcx]
    exact hd
  · intro h
    refine ⟨s.map fun c => [c], ?_, ?_⟩
    · induction s with
      | nil => rfl
      | cons c s ih =>
        simp only [List.map_cons, List.flatten_cons, List.singleton_append, List.cons.injEq,
          true_and]
        exact ih fun d hd => h d (List.mem_cons_of_mem _ hd)
    · intro x hx
      rw [List.mem_map] at hx
      obtain ⟨c, hc, rfl⟩ := hx
      exact ⟨c, rfl, h c hc⟩

/-- A class repeated at least once denotes the non-empty strings over the class. -/
theorem Lang_plus_cls (rs : List (Char × Char)) (s : List Char) :
    Lang (plus (cls rs)) s ↔ s ≠ [] ∧ ∀ c ∈ s, inClass rs c = true := by
  unfold plus
  simp only [Lang_star_cls, Lang]
  constructor
  · rintro ⟨s1, s2, rfl, ⟨c, rfl, hc⟩, h2⟩
    refine ⟨by simp, ?_⟩
    intro d hd
    rcases List.mem_append.1 hd with h | h
    · rw [List.mem_singleton] at h
      rw [h]
      exact hc
    · exact (Lang_star_cls rs s2).1 h2 d h
  · rintro ⟨hne, hall⟩
    cases s with
    | nil => exact absurd rfl hne
    | cons c s =>
      exact ⟨[c], s, rfl, ⟨c, rfl, hall c (List.mem_cons_self _ _)⟩,
        (Lang_star_cls rs s).2 fun d hd => hall d (List.mem_cons_of_mem _ hd)⟩

/-- Concatenation is monotone. -/
theorem Lang_seq_mono {a a' b b' : Regex} (ha : ∀ s, Lang a s → Lang a' s)
    (hb : ∀ s, Lang b s → Lang b' s) (s : List Char) (h : Lang (seq a b) s) :
    Lang (seq a' b') s := by
  obtain ⟨s1, s2, rfl, h1, h2⟩ := h
  exact ⟨s1, s2, rfl, ha s1 h1, hb s2 h2⟩

/-- Alternation is monotone. -/
theorem Lang_alt_mono {a a' b b' : Regex} (ha : ∀ s, Lang a s → Lang a' s)
    (hb : ∀ s, Lang b s → Lang b' s) (s : List Char) (h : Lang (alt a b) s) :
    Lang (alt a' b') s := by
  rcases h with h | h
  · exact Or.inl (ha s h)
  · exact Or.inr (hb s h)

/-- Repetition is monotone. -/
theorem Lang_star_mono {a a' : Regex} (ha : ∀ s, Lang a s → Lang a' s) (s : List Char)
    (h : Lang (star a) s) : Lang (star a') s := by
  obtain ⟨L, rfl, hall⟩ := h
  exact ⟨L, rfl, fun x hx => ha x (hall x hx)⟩

/-- The optional pattern is monotone. -/
theorem Lang_opt_mono {a a' : Regex} (ha : ∀ s, Lang a s → Lang a' s) (s : List Char)
    (h : Lang (opt a) s) : Lang (opt a') s :=
  Lang_alt_mono ha (fun _ h => h) s h

end Regex

/-- Joining with dots puts a dot before every string but the first. -/
theorem intercalate_dot (x : List Char) (xs : List (List Char)) :
    ['.'].intercalate (x :: xs) = x ++ (xs.map fun y => '.' :: y).flatten := by
  induction xs generalizing x with
  | nil => simp [List.intercalate]
  | cons y ys ih =>
    have h := ih y
    simp only [List.intercalate, List.intersperse, List.flatten_cons, List.map_cons] at h ⊢
    rw [h]
    simp

/-- The pattern `X(?:\.X)*` denotes the dot-joined strings of `X`. -/
theorem Lang_dotJoined (r : Regex) (s : List Char) :
    Regex.Lang (Regex.seq r (Regex.star (Regex.seq (Regex.chr '.') r))) s ↔
      Spec.DotJoined (Regex.Lang r) s := by
  constructor
  · rintro ⟨s1, s2, rfl, h1, L, rfl, hall⟩
    have hL : ∀ y ∈ L, ∃ t, y = '.' :: t ∧ Regex.Lang r t := by
      intro y hy
      obtain ⟨a, b, rfl, ha, hb⟩ := hall y hy
      rw [Regex.Lang_chr] at ha
      subst ha
      exact ⟨b, rfl, hb⟩
    have hmap : (L.map List.tail).map (fun y => '.' :: y) = L := by
      rw [List.map_map]
      conv_rhs => rw [← List.map_id L]
      apply List.map_congr_left
      intro y hy
      obtain ⟨t, rfl, _⟩ := hL y hy
      rfl
    refine ⟨s1 :: L.map List.tail, by simp, ?_, ?_⟩
    · rw [intercalate_dot, hmap]
    · intro x hx
      rcases List.mem_cons.1 hx with rfl | hx
      · exact h1
      · rw [List.mem_map] at hx
        obtain ⟨y, hy, rfl⟩ := hx
        obtain ⟨t, rfl, ht⟩ := hL y hy
        exact ht
  · rintro ⟨ids, hne, rfl, hall⟩
    cases ids with
    | nil => exact absurd rfl hne
    | cons x xs =>
      rw [intercalate_dot]
      refine ⟨x, _, rfl, hall x (List.mem_cons_self _ _), xs.map (fun y => '.' :: y), rfl, ?_⟩
      intro y hy
      rw [List.mem_map] at hy
      obtain ⟨z, hz, rfl⟩ := hy
      exact ⟨['.'], z, rfl, (Regex.Lang_chr _ _).2 rfl, hall z (List.mem_cons_of_mem _ hz)⟩


/-- Dot-joining respects equivalent properties. -/
theorem DotJoined_congr {P Q : List Char → Prop} (h : ∀ x, P x ↔ Q x) (s : List Char) :
    Spec.DotJoined P s ↔ Spec.DotJoined Q s := by
  constructor
  · rintro ⟨ids, hne, hs, hall⟩
    exact ⟨ids, hne, hs, fun x hx => (h x).1 (hall x hx)⟩
  · rintro ⟨ids, hne, hs, hall⟩
    exact ⟨ids, hne, hs, fun x hx => (h x).2 (hall x hx)⟩

open Regex Grammar in
/-- The strict numeric identifier pattern denotes the strict numeric identifiers. -/
theorem Lang_NUMERICIDENTIFIER (s : List Char) :
    Lang NUMERICIDENTIFIER.compile s ↔ Spec.StrictNumeric s := by
  show Lang (.alt (chr '0') (.seq (.cls [('1', '9')]) (.star (.cls [('0', '9')])))) s ↔ _
  simp only [Lang_alt, Lang_seq, Lang_cls, Lang_chr, Lang_star_cls, inClass_nonzero, inClass_digit,
    Spec.StrictNumeric]
  constructor
  · rintro (h | ⟨s1, s2, rfl, ⟨c, rfl, hc⟩, h2⟩)
    · exact Or.inl h
    · exact Or.inr ⟨c, s2, rfl, hc.1, hc.2, h2⟩
  · rintro (h | ⟨d, ds, rfl, hd, hd0, hds⟩)
    · exact Or.inl h
    · exact Or.inr ⟨[d], ds, rfl, ⟨d, rfl, hd, hd0⟩, hds⟩

open Regex Grammar in
/-- The loose numeric identifier pattern denotes the non-empty digit sequences. -/
theorem Lang_NUMERICIDENTIFIERLOOSE (s : List Char) :
    Lang NUMERICIDENTIFIERLOOSE.compile s ↔ Spec.LooseNumeric s := by
  show Lang (plus (.cls [('0', '9')])) s ↔ _
  simp only [Lang_plus_cls, inClass_digit, Spec.LooseNumeric]

open Regex Grammar in
/-- The non-numeric identifier pattern denotes the non-numeric identifiers. -/
theorem Lang_NONNUMERICIDENTIFIER (s : List Char) :
    Lang NONNUMERICIDENTIFIER.compile s ↔ Spec.NonNumeric s := by
  show Lang (.seq (.star (.cls [('0', '9')])) (.seq (.cls [('a', 'z'), ('A', 'Z'), ('-', '-')])
    (.star (.cls [('a', 'z'), ('A', 'Z'), ('0', '9'), ('-', '-')])))) s ↔ _
  simp only [Lang_seq, Lang_cls, Lang_star_cls, inClass_digit, inClass_head, inClass_ident,
    Spec.NonNumeric]
  constructor
  · rintro ⟨ds, t, rfl, hds, u, rest, rfl, ⟨c, rfl, hc⟩, hrest⟩
    exact ⟨ds, c, rest, rfl, hds, hc, hrest⟩
  · rintro ⟨ds, c, rest, rfl, hds, hc, hrest⟩
    exact ⟨ds, c :: rest, rfl, hds, [c], rest, rfl, ⟨c, rfl, hc⟩, hrest⟩

open Regex Grammar in
/-- The build identifier pattern denotes the non-empty runs of letters, digits
and hyphens. -/
theorem Lang_BUILDIDENTIFIER (s : List Char) :
    Lang BUILDIDENTIFIER.compile s ↔ Spec.BuildIdentifier s := by
  show Lang (plus (.cls [('0', '9'), ('A', 'Z'), ('a', 'z'), ('-', '-')])) s ↔ _
  simp only [Lang_plus_cls, inClass_build, Spec.BuildIdentifier]


/-- Three strings of a pattern joined by dots. -/
theorem Lang_three (n : Regex) (t : List Char) :
    Regex.Lang (.seq n (.seq (Regex.chr '.') (.seq n (.seq (Regex.chr '.') n)))) t ↔
      ∃ a b c, t = a ++ '.' :: (b ++ '.' :: c) ∧ Regex.Lang n a ∧ Regex.Lang n b ∧
        Regex.Lang n c := by
  simp only [Regex.Lang_seq, Regex.Lang_chr]
  constructor
  · rintro ⟨a, _, rfl, ha, _, _, rfl, rfl, b, _, rfl, hb, _, c, rfl, rfl, hc⟩
    exact ⟨a, b, c, rfl, ha, hb, hc⟩
  · rintro ⟨a, b, c, rfl, ha, hb, hc⟩
    exact ⟨a, _, rfl, ha, ['.'], _, rfl, rfl, b, _, rfl, hb, ['.'], c, rfl, rfl, hc⟩

/-- A marker character followed by dot-joined strings of a pattern. -/
theorem Lang_tagged (m : Char) (r : Regex) (t : List Char) :
    Regex.Lang (.seq (Regex.chr m) (.seq r (.star (.seq (Regex.chr '.') r)))) t ↔
      ∃ p, t = m :: p ∧ Spec.DotJoined (Regex.Lang r) p := by
  rw [Regex.Lang_seq]
  simp only [Lang_dotJoined, Regex.Lang_chr]
  constructor
  · rintro ⟨_, p, rfl, rfl, hp⟩
    exact ⟨p, rfl, hp⟩
  · rintro ⟨p, rfl, hp⟩
    exact ⟨[m], p, rfl, rfl, hp⟩

/-- An optional marker character followed by dot-joined strings of a pattern. -/
theorem Lang_optTagged (m : Char) (r : Regex) (t : List Char) :
    Regex.Lang (.seq (Regex.opt (Regex.chr m)) (.seq r (.star (.seq (Regex.chr '.') r)))) t ↔
      ∃ h p, t = h ++ p ∧ (h = [] ∨ h = [m]) ∧ Spec.DotJoined (Regex.Lang r) p := by
  rw [Regex.Lang_seq]
  simp only [Lang_dotJoined, Regex.Lang_opt, Regex.Lang_chr]

/-- A lead, a main part, an optional pre-release part and an optional build part. -/
theorem Lang_full (lead main pre build : Regex) (t : List Char) :
    Regex.Lang (.seq lead (.seq main (.seq (Regex.opt pre) (Regex.opt build)))) t ↔
      ∃ v m p b, t = v ++ (m ++ (p ++ b)) ∧ Regex.Lang lead v ∧ Regex.Lang main m ∧
        (p = [] ∨ Regex.Lang pre p) ∧ (b = [] ∨ Regex.Lang build b) := by
  simp only [Regex.Lang_seq, Regex.Lang_opt]
  constructor
  · rintro ⟨v, _, rfl, hv, m, _, rfl, hm, p, b, rfl, hp, hb⟩
    exact ⟨v, m, p, b, rfl, hv, hm, hp, hb⟩
  · rintro ⟨v, m, p, b, rfl, hv, hm, hp, hb⟩
    exact ⟨v, _, rfl, hv, m, _, rfl, hm, p, b, rfl, hp, hb⟩

open Regex Grammar in
/-- The strict pattern between the anchors denotes the strict full versions. -/
theorem Lang_FULLPLAIN (t : List Char) : Lang FULLPLAIN.compile t ↔ Spec.StrictFull t := by
  show Lang (.seq (opt (chr 'v'))
    (.seq (.seq NUMERICIDENTIFIER.compile (.seq (chr '.') (.seq NUMERICIDENTIFIER.compile
      (.seq (chr '.') NUMERICIDENTIFIER.compile))))
    (.seq (opt (.seq (chr '-') (.seq (.alt NUMERICIDENTIFIER.compile NONNUMERICIDENTIFIER.compile)
      (.star (.seq (chr '.') (.alt NUMERICIDENTIFIER.compile NONNUMERICIDENTIFIER.compile))))))
    (opt (.seq (chr '+') (.seq BUILDIDENTIFIER.compile
      (.star (.seq (chr '.') BUILDIDENTIFIER.compile)))))))) t ↔ _
  rw [Lang_full]
  simp only [Lang_three, Lang_tagged, Lang_opt, Lang_chr, Lang_NUMERICIDENTIFIER]
  have hpre : ∀ x, Lang (.alt NUMERICIDENTIFIER.compile NONNUMERICIDENTIFIER.compile) x ↔
      (Spec.StrictNumeric x ∨ Spec.NonNumeric x) := fun x => by
    rw [Lang_alt, Lang_NUMERICIDENTIFIER, Lang_NONNUMERICIDENTIFIER]
  simp only [DotJoined_congr hpre, DotJoined_congr Lang_BUILDIDENTIFIER]
  unfold Spec.StrictFull
  constructor
  · rintro ⟨v, _, p, b, rfl, hv, ⟨major, minor, patch, rfl, h1, h2, h3⟩, hp, hb⟩
    exact ⟨v, major, minor, patch, p, b, by simp, hv, h1, h2, h3, hp, hb⟩
  · rintro ⟨v, major, minor, patch, p, b, rfl, hv, h1, h2, h3, hp, hb⟩
    exact ⟨v, _, p, b, by simp, hv, ⟨major, minor, patch, rfl, h1, h2, h3⟩, hp, hb⟩

open Regex Grammar in
/-- The loose pattern between the anchors denotes the loose full versions. -/
theorem Lang_LOOSEPLAIN (t : List Char) : Lang LOOSEPLAIN.compile t ↔ Spec.LooseFull t := by
  show Lang (.seq (.star (.cls [('v', 'v'), ('=', '='), (Char.ofNat 9, Char.ofNat 10),
      (Char.ofNat 12, Char.ofNat 13), (' ', ' ')]))
    (.seq (.seq NUMERICIDENTIFIERLOOSE.compile (.seq (chr '.') (.seq NUMERICIDENTIFIERLOOSE.compile
      (.seq (chr '.') NUMERICIDENTIFIERLOOSE.compile))))
    (.seq (opt (.seq (opt (chr '-'))
      (.seq (.alt NUMERICIDENTIFIERLOOSE.compile NONNUMERICIDENTIFIER.compile)
      (.star (.seq (chr '.')
        (.alt NUMERICIDENTIFIERLOOSE.compile NONNUMERICIDENTIFIER.compile))))))
    (opt (.seq (chr '+') (.seq BUILDIDENTIFIER.compile
      (.star (.seq (chr '.') BUILDIDENTIFIER.compile)))))))) t ↔ _
  rw [Lang_full]
  simp only [Lang_three, Lang_tagged, Lang_optTagged, Lang_star_cls, inClass_lead,
    Lang_NUMERICIDENTIFIERLOOSE]
  have hpre : ∀ x, Lang (.alt NUMERICIDENTIFIERLOOSE.compile NONNUMERICIDENTIFIER.compile) x ↔
      (Spec.LooseNumeric x ∨ Spec.NonNumeric x) := fun x => by
    rw [Lang_alt, Lang_NUMERICIDENTIFIERLOOSE, Lang_NONNUMERICIDENTIFIER]
  simp only [DotJoined_congr hpre, DotJoined_congr Lang_BUILDIDENTIFIER]
  unfold Spec.LooseFull
  constructor
  · rintro ⟨v, _, p, b, rfl, hv, ⟨major, minor, patch, rfl, h1, h2, h3⟩, hp, hb⟩
    exact ⟨v, major, minor, patch, p, b, by simp, hv, h1, h2, h3, hp, hb⟩
  · rintro ⟨v, major, minor, patch, p, b, rfl, hv, h1, h2, h3, hp, hb⟩
    exact ⟨v, _, p, b, by simp, hv, ⟨major, minor, patch, rfl, h1, h2, h3⟩, hp, hb⟩

/-- Matching with `FULL` is membership in the denotation of the strict tree. -/
theorem FULL_MatchString_iff (s : String) :
    FULL.MatchString s = true ↔ Regex.Lang Grammar.FULLPLAIN.compile s.data := by
  simp only [Regexp.MatchString, FULL_body, Regex.matchesList_iff]

/-- Matching with `LOOSE` is membership in the denotation of the loose tree. -/
theorem LOOSE_MatchString_iff (s : String) :
    LOOSE.MatchString s = true ↔ Regex.Lang Grammar.LOOSEPLAIN.compile s.data := by
  simp only [Regexp.MatchString, LOOSE_body, Regex.matchesList_iff]

/-- A strict numeric identifier is a non-empty digit sequence. -/
theorem strictNumeric_loose {s : List Char} (h : Spec.StrictNumeric s) : Spec.LooseNumeric s := by
  rcases h with rfl | ⟨d, ds, rfl, hd, _, hds⟩
  · exact ⟨by simp, by simp⟩
  · refine ⟨by simp, ?_⟩
    intro c hc
    rcases List.mem_cons.1 hc with rfl | hc
    · exact hd
    · exact hds c hc

/-- Dot-joining is monotone in the property of the joined strings. -/
theorem DotJoined_mono {P Q : List Char → Prop} (h : ∀ x, P x → Q x) (s : List Char)
    (hs : Spec.DotJoined P s) : Spec.DotJoined Q s := by
  obtain ⟨ids, hne, rfl, hall⟩ := hs
  exact ⟨ids, hne, rfl, fun x hx => h x (hall x hx)⟩

/-- Every strict full version is a loose full version. -/
theorem strictFull_loose {s : List Char} (h : Spec.StrictFull s) : Spec.LooseFull s := by
  obtain ⟨v, major, minor, patch, pre, build, rfl, hv, h1, h2, h3, hp, hb⟩ := h
  refine ⟨v, major, minor, patch, pre, build, rfl, ?_, strictNumeric_loose h1, strictNumeric_loose h2, strictNumeric_loose h3, ?_, hb⟩
  · intro c hc
    rcases hv with rfl | rfl
    · simp at hc
    · rw [List.mem_singleton] at hc
      exact Or.inl hc
  · rcases hp with rfl | ⟨p, rfl, hj⟩
    · exact Or.inl rfl
    · refine Or.inr ⟨['-'], p, rfl, Or.inr rfl, DotJoined_mono ?_ p hj⟩
      rintro x (hx | hx)
      · exact Or.inl (strictNumeric_loose hx)
      · exact Or.inr hx

/-! ## The two full-version patterns -/

/-- C15: the strict pattern `FULL` accepts a string exactly when the whole string
is an optional single `v`, three strict numeric identifiers joined by dots, an
optional hyphen with dot-joined pre-release identifiers (strict numeric or
non-numeric), and an optional plus sign with dot-joined build identifiers. -/
theorem FULL_accepts_iff (s : String) : FULL.MatchString s = true ↔ Spec.StrictFull s.data := by
  rw [FULL_MatchString_iff, Lang_FULLPLAIN]

/-- C16: the loose pattern `LOOSE` accepts a string exactly when the whole string
is a run of `v`, `=` and white space, three non-empty digit sequences joined by
dots, optionally an optional hyphen with dot-joined loose pre-release
identifiers (digit sequence or non-numeric), and an optional plus sign with
dot-joined build identifiers. -/
theorem LOOSE_accepts_iff (s : String) : LOOSE.MatchString s = true ↔ Spec.LooseFull s.data := by
  rw [LOOSE_MatchString_iff, Lang_LOOSEPLAIN]

/-- C19: every string the strict pattern `FULL` accepts is accepted by the loose
pattern `LOOSE`. -/
theorem loose_accepts_strict (s : String) (h : FULL.MatchString s = true) :
    LOOSE.MatchString s = true := by
  rw [LOOSE_MatchString_iff, Lang_LOOSEPLAIN]
  rw [FULL_MatchString_iff, Lang_FULLPLAIN] at h
  exact strictFull_loose h

/-- C19 at `"v1.2.3-alpha.1+build.5"`. -/
theorem loose_accepts_strict_witness :
    FULL.MatchString "v1.2.3-alpha.1+build.5" = true ∧
      LOOSE.MatchString "v1.2.3-alpha.1+build.5" = true :=
  ⟨by decide, loose_accepts_strict "v1.2.3-alpha.1+build.5" (by decide)⟩

/-! ## Numeric identifiers and integers -/

/-- Reading more digits does not decrease the value. -/
theorem le_decimalFrom (s : List Char) (n : Nat) : n ≤ Spec.decimalFrom n s := by
  induction s generalizing n with
  | nil => exact le_refl _
  | cons c s ih =>
    have h := ih (n * 10 + (c.toNat - '0'.toNat))
    simp only [Spec.decimalFrom, List.foldl_cons] at h ⊢
    omega

/-- The digit loop on a digit sequence: the value when it fits 64 bits, a range
error otherwise, never a syntax error. -/
theorem parseUintLoop_digits (s : List Char) (n : Nat) (h : ∀ c ∈ s, c.isDigit = true)
    (hn : n ≤ 2 ^ 64 - 1) :
    parseUintLoop s n =
      if Spec.decimalFrom n s ≤ 2 ^ 64 - 1 then .ok (Spec.decimalFrom n s)
      else .error .errRange := by
  induction s generalizing n with
  | nil =>
    have hn' : n ≤ 18446744073709551615 := by
      have hmax : 2 ^ 64 - 1 = 18446744073709551615 := by norm_num
      omega
    simp [parseUintLoop, Spec.decimalFrom, hn']
  | cons c s ih =>
    have hc : c.isDigit = true := h c (List.mem_cons_self _ _)
    have hs : ∀ d ∈ s, d.isDigit = true := fun d hd => h d (List.mem_cons_of_mem _ hd)
    have hge := le_decimalFrom s (n * 10 + (c.toNat - '0'.toNat))
    have hstep : Spec.decimalFrom n (c :: s) =
        Spec.decimalFrom (n * 10 + (c.toNat - '0'.toNat)) s := rfl
    have hcut : (2 ^ 64 - 1) / 10 + 1 = 1844674407370955162 := by norm_num
    have hmax : 2 ^ 64 - 1 = 18446744073709551615 := by norm_num
    rw [hstep]
    simp only [parseUintLoop, hc, Bool.not_true, Bool.false_eq_true, if_false, hcut, hmax] at *
    by_cases h1 : n ≥ 1844674407370955162
    · rw [if_pos h1, if_neg (by omega)]
    · rw [if_neg h1]
      by_cases h2 : n * 10 + (c.toNat - '0'.toNat) > 18446744073709551615
      · rw [if_pos h2, if_neg (by omega)]
      · rw [if_neg h2]
        exact ih _ hs (by omega)

/-- On a non-empty digit sequence `parseInt` returns the value when it is at most
`maxInt`, and `maxInt` with a range error otherwise. -/
theorem parseInt_digits (s : List Char) (h : Spec.LooseNumeric s) :
    parseInt s =
      if (Spec.decimalValue s : Int) ≤ maxInt then ((Spec.decimalValue s : Int), none)
      else (maxInt, some .errRange) := by
  obtain ⟨hne, hall⟩ := h
  cases s with
  | nil => exact absurd rfl hne
  | cons c cs =>
    have hc : c.isDigit = true := hall c (List.mem_cons_self _ _)
    have hplus : (c == '+') = false := by
      rw [beq_eq_false_iff_ne]
      rintro rfl
      exact absurd hc (by decide)
    have hminus : (c == '-') = false := by
      rw [beq_eq_false_iff_ne]
      rintro rfl
      exact absurd hc (by decide)
    have hloop := parseUintLoop_digits (c :: cs) 0 hall (by norm_num)
    have hmax : (2 : Nat) ^ 64 - 1 = 18446744073709551615 := by norm_num
    have h63 : (2 : Nat) ^ 63 = 9223372036854775808 := by norm_num
    have hmaxInt : maxInt = 9223372036854775807 := by norm_num [maxInt]
    simp only [parseInt, hplus, hminus, Bool.or_self, Bool.false_eq_true, if_false,
      List.isEmpty_cons, hloop, Spec.decimalValue, Bool.not_false, Bool.true_and,
      Bool.false_and, hmax, h63, hmaxInt]
    by_cases h1 : Spec.decimalFrom 0 (c :: cs) ≤ 18446744073709551615
    · rw [if_pos h1]
      by_cases h2 : Spec.decimalFrom 0 (c :: cs) ≥ 9223372036854775808
      · simp only [h2, decide_True, if_true]
        rw [if_neg (by omega)]
      · simp only [h2, decide_False, Bool.false_eq_true, if_false]
        rw [if_pos (by omega)]
    · rw [if_neg h1]
      simp only []
      rw [if_neg (by omega)]

/-- On a non-empty digit sequence `Atoi` reports no syntax error: it returns the
value when it is at most `maxInt`, and `maxInt` with a range error otherwise. -/
theorem Atoi_digits (s : String) (h : Spec.LooseNumeric s.data) :
    Atoi s =
      if (Spec.decimalValue s.data : Int) ≤ maxInt then ((Spec.decimalValue s.data : Int), none)
      else (maxInt, some (.numError "Atoi" s .errRange)) := by
  unfold Atoi
  rw [parseInt_digits s.data h]
  by_cases hv : (Spec.decimalValue s.data : Int) ≤ maxInt
  · simp only [hv, if_true]
  · simp only [hv, if_false]


/-- The decimal digit characters: digits, each with its own value, and only the
digit of zero is `0`. -/
theorem digitChar_spec : ∀ m < 10, (Nat.digitChar m).isDigit = true ∧
    (Nat.digitChar m).toNat - '0'.toNat = m ∧ (m ≠ 0 → Nat.digitChar m ≠ '0') := by
  decide

/-- Appending one digit multiplies the value by ten and adds the digit. -/
theorem decimalValue_append (L : List Char) (c : Char) :
    Spec.decimalValue (L ++ [c]) = Spec.decimalValue L * 10 + (c.toNat - '0'.toNat) := by
  simp [Spec.decimalValue, Spec.decimalFrom, List.foldl_append]

/-- The digits `Nat.toDigitsCore` puts in front of its accumulator form a strict
numeric identifier that denotes the number. -/
theorem toDigitsCore_spec (fuel k : Nat) (ds : List Char) (h : k < fuel) :
    ∃ L, Nat.toDigitsCore 10 fuel k ds = L ++ ds ∧ Spec.StrictNumeric L ∧
      Spec.decimalValue L = k := by
  induction fuel generalizing k ds with
  | zero => omega
  | succ fuel ih =>
    have hd := digitChar_spec (k % 10) (Nat.mod_lt _ (by norm_num))
    by_cases hk : k / 10 = 0
    · have hk10 : k % 10 = k := by omega
      rw [hk10] at hd
      refine ⟨[Nat.digitChar k], ?_, ?_, ?_⟩
      · simp [Nat.toDigitsCore, hk, hk10]
      · by_cases h0 : k = 0
        · subst h0
          exact Or.inl rfl
        · exact Or.inr ⟨_, [], rfl, hd.1, hd.2.2 h0, by simp⟩
      · have hv := hd.2.1
        simp only [Spec.decimalValue, Spec.decimalFrom, List.foldl_cons, List.foldl_nil]
        omega
    · obtain ⟨L, hL, hstrict, hval⟩ := ih (k / 10) (Nat.digitChar (k % 10) :: ds) (by omega)
      refine ⟨L ++ [Nat.digitChar (k % 10)], ?_, ?_, ?_⟩
      · simp [Nat.toDigitsCore, hk, hL]
      · rcases hstrict with rfl | ⟨d, t, rfl, hd1, hd2, ht⟩
        · exact absurd hval.symm hk
        · refine Or.inr ⟨d, t ++ [Nat.digitChar (k % 10)], rfl, hd1, hd2, ?_⟩
          intro c hc
          rcases List.mem_append.1 hc with hc | hc
          · exact ht c hc
          · rw [List.mem_singleton] at hc
            rw [hc]
            exact hd.1
      · rw [decimalValue_append, hval, hd.2.1]
        omega

/-- The rendering of a non-negative integer is a strict numeric identifier that
denotes the integer. -/
theorem formatInt_spec (n : Int) (h : 0 ≤ n) :
    Spec.StrictNumeric (formatInt n).data ∧ (Spec.decimalValue (formatInt n).data : Int) = n := by
  obtain ⟨k, rfl⟩ := Int.eq_ofNat_of_zero_le h
  have hdata : (formatInt (k : Int)).data = Nat.toDigits 10 k := rfl
  obtain ⟨L, hL, hstrict, hval⟩ := toDigitsCore_spec (k + 1) k [] (by omega)
  rw [List.append_nil] at hL
  rw [hdata, Nat.toDigits, hL, hval]
  exact ⟨hstrict, rfl⟩

/-- The digit loop fails on a sequence that holds a character other than a
digit. -/
theorem parseUintLoop_nondigit (l : List Char) (n : Nat) (h : ∃ c ∈ l, c.isDigit = false) :
    ∃ e, parseUintLoop l n = .error e := by
  induction l generalizing n with
  | nil =>
    obtain ⟨c, hc, _⟩ := h
    simp at hc
  | cons d l ih =>
    by_cases hd : d.isDigit = true
    · have hl : ∃ c ∈ l, c.isDigit = false := by
        obtain ⟨c, hc, hcd⟩ := h
        rcases List.mem_cons.1 hc with rfl | hc
        · rw [hd] at hcd
          cases hcd
        · exact ⟨c, hc, hcd⟩
      simp only [parseUintLoop, hd, Bool.not_true, Bool.false_eq_true, if_false]
      split
      · exact ⟨_, rfl⟩
      · split
        · exact ⟨_, rfl⟩
        · exact ih _ hl
    · simp only [Bool.not_eq_true] at hd
      exact ⟨.errSyntax, by simp [parseUintLoop, hd]⟩

/-- On a sequence that holds a dot `parseInt` reports an error. -/
theorem parseInt_of_dot (s : List Char) (h : '.' ∈ s) : (parseInt s).2 ≠ none := by
  cases s with
  | nil => simp at h
  | cons c cs =>
    have hdot : ('.' : Char).isDigit = false := by decide
    by_cases hsign : (c == '+' || c == '-') = true
    · have hcs : '.' ∈ cs := by
        rcases List.mem_cons.1 h with rfl | h
        · exact absurd hsign (by decide)
        · exact h
      obtain ⟨e, he⟩ := parseUintLoop_nondigit cs 0 ⟨'.', hcs, hdot⟩
      have hne : cs.isEmpty = false := by
        cases cs with
        | nil => simp at hcs
        | cons _ _ => rfl
      simp only [parseInt, hsign, if_true, hne, Bool.false_eq_true, if_false, he]
      cases e with
      | errSyntax => simp
      | errRange =>
        simp only []
        split <;> simp
    · obtain ⟨e, he⟩ := parseUintLoop_nondigit (c :: cs) 0 ⟨'.', h, hdot⟩
      simp only [parseInt, hsign, Bool.false_eq_true, if_false, List.isEmpty_cons, he]
      cases e with
      | errSyntax => simp
      | errRange =>
        simp only []
        split <;> simp

/-- On a string that holds a dot `Atoi` reports an error. -/
theorem Atoi_of_dot (s : String) (h : '.' ∈ s.data) : (Atoi s).2 ≠ none := by
  have hp := parseInt_of_dot s.data h
  unfold Atoi
  split
  · simp
  · rename_i heq
    rw [heq] at hp
    exact absurd rfl hp

/-- A loose full version holds a dot. -/
theorem dot_mem_of_looseFull (s : List Char) (h : Spec.LooseFull s) : '.' ∈ s := by
  obtain ⟨lead, major, minor, patch, pre, build, rfl, _⟩ := h
  simp

/-- On every string the strict or the loose pattern matches, `Atoi` reports an
error. -/
theorem Atoi_of_match (s : String)
    (h : FULL.MatchString s = true ∨ LOOSE.MatchString s = true) : (Atoi s).2 ≠ none := by
  apply Atoi_of_dot
  apply dot_mem_of_looseFull
  rcases h with h | h
  · exact strictFull_loose ((Lang_FULLPLAIN _).1 ((FULL_MatchString_iff s).1 h))
  · exact (Lang_LOOSEPLAIN _).1 ((LOOSE_MatchString_iff s).1 h)

/-! ## Conversion of the extracted strings -/

/-- C14: on `"99999999999999999999.0.0"` and on `"1.2.3"`, which `FULL` matches,
the string `newSemVer` converts is `matched[0]`, the whole match, and `Atoi`
reports a range error on the first and a syntax error on the second; `matched[1]`
then panics, so minor and patch are never converted.  On every string the strict
or the loose pattern matches, `Atoi` of the whole match reports an error, and
`newSemVer` never panics with a conversion error. -/
theorem whole_match_conversion_fails :
    (len "99999999999999999999.0.0" ≤ 256 ∧
      FULL.MatchString "99999999999999999999.0.0" = true ∧
      FULL.FindAllString (TrimSpace "99999999999999999999.0.0") =
        ["99999999999999999999.0.0"] ∧
      Atoi "99999999999999999999.0.0" =
        (maxInt, some (.numError "Atoi" "99999999999999999999.0.0" .errRange)) ∧
      newSemVer "99999999999999999999.0.0" "" = .panic (.indexOutOfRange 1 1) ∧
      parse "99999999999999999999.0.0" "" = .panic (.indexOutOfRange 1 1)) ∧
    (FULL.MatchString "1.2.3" = true ∧
      FULL.FindAllString (TrimSpace "1.2.3") = ["1.2.3"] ∧
      Atoi "1.2.3" = (0, some (.numError "Atoi" "1.2.3" .errSyntax)) ∧
      newSemVer "1.2.3" "" = .panic (.indexOutOfRange 1 1) ∧
      parse "1.2.3" "" = .panic (.indexOutOfRange 1 1)) ∧
    (∀ s : String, FULL.MatchString s = true ∨ LOOSE.MatchString s = true →
      (Atoi s).2 ≠ none) ∧
    (∀ (version loose : String) (err : GoError),
      newSemVer version loose ≠ .panic (.error err)) := by
  refine ⟨by decide, by decide, Atoi_of_match, ?_⟩
  intro version loose err h
  rw [newSemVer_panics] at h
  by_cases hm : (if len loose > 0 then LOOSE else FULL).MatchString (TrimSpace version) = true
  · rw [if_pos hm] at h
    cases h
  · rw [if_neg hm] at h
    cases h

/-- The rendering of an integer of the range `0` to `maxInt` converts back to it. -/
theorem Atoi_formatInt (n : Int) (h0 : 0 ≤ n) (h1 : n ≤ maxInt) :
    Atoi (formatInt n) = (n, none) := by
  have hspec := formatInt_spec n h0
  rw [Atoi_digits (formatInt n) (strictNumeric_loose hspec.1), hspec.2, if_pos h1]

/-- The characters of the rendered version. -/
theorem version_data (s : SemVer) :
    s.version.data =
      (formatInt s.major).data ++ '.' :: ((formatInt s.minor).data ++
        '.' :: (formatInt s.patch).data) := by
  simp [SemVer.version, String.data_append]

/-! ## The rendering is a strict version -/

/-- C20: for a version with non-negative major, minor and patch, the string
`version()` returns is accepted by the strict pattern `FULL`; it is three strict
numeric identifiers joined by dots, whose decimal values are major, minor and
patch, and `Atoi` converts each back to its number when the number is at most
`maxInt`. -/
theorem version_is_strict (s : SemVer) (hmajor : 0 ≤ s.major) (hminor : 0 ≤ s.minor)
    (hpatch : 0 ≤ s.patch) :
    FULL.MatchString s.version = true ∧
    s.version.data =
      (formatInt s.major).data ++ '.' :: ((formatInt s.minor).data ++
        '.' :: (formatInt s.patch).data) ∧
    (∀ n ∈ [s.major, s.minor, s.patch],
      Spec.StrictNumeric (formatInt n).data ∧
      (Spec.decimalValue (formatInt n).data : Int) = n ∧
      (n ≤ maxInt → Atoi (formatInt n) = (n, none))) := by
  have h1 := formatInt_spec s.major hmajor
  have h2 := formatInt_spec s.minor hminor
  have h3 := formatInt_spec s.patch hpatch
  refine ⟨?_, version_data s, ?_⟩
  · rw [FULL_MatchString_iff, Lang_FULLPLAIN, version_data]
    exact ⟨[], _, _, _, [], [], by simp, Or.inl rfl, h1.1, h2.1, h3.1, Or.inl rfl, Or.inl rfl⟩
  · intro n hn
    have hn0 : 0 ≤ n := by
      simp only [List.mem_cons, List.mem_singleton, List.not_mem_nil, or_false] at hn
      rcases hn with rfl | rfl | rfl
      · exact hmajor
      · exact hminor
      · exact hpatch
    exact ⟨(formatInt_spec n hn0).1, (formatInt_spec n hn0).2, Atoi_formatInt n hn0⟩

/-- C20 at the version 10.0.3. -/
theorem version_is_strict_witness :
    (⟨"", 10, 0, 3, "", "", ""⟩ : SemVer).version = "10.0.3" ∧
    FULL.MatchString (⟨"", 10, 0, 3, "", "", ""⟩ : SemVer).version = true :=
  ⟨by decide, (version_is_strict ⟨"", 10, 0, 3, "", "", ""⟩ (by decide) (by decide)
    (by decide)).1⟩

end Semver
